import Mathlib

/-!
Verification of the clunk limit order book engine.

Shallow embedding of the repository's core:
  * `src/src/orderbook/order.h`, `price_level.{h,cpp}`, `order_book.{h,cpp}`
  * `src/src/feed_handlers/coinbase_handler.cpp` (the level2/ticker revision,
    i.e. the revision containing `processTicker` and the snapshot field checks)
  * the console visualizer's `calculateHFTMetrics` (price-impact metric).

Modelling conventions:
  * C++ `double` prices and sizes are modelled as exact rationals `ℚ`.
    `std::numeric_limits<double>::epsilon()` and `::max()` are the exact
    rational values of those doubles.
  * `std::map<double, PriceLevel>` is modelled as an association list kept in
    the map's iteration order (descending prices for bids via `std::greater`,
    ascending for asks); `begin()` is the head of the list.
  * `std::unordered_map<K, V>` is modelled as an association list in insertion
    order; lookup returns the first entry with the key (keys are unique in all
    reachable states).
  * `std::shared_ptr<Order>` aliasing between a price level and the book's id
    index is modelled by keeping both copies and updating them together
    whenever the shared object is mutated (`setSize`).
  * `Order::timestamp` is taken from the wall clock at creation and never read
    by any book operation, so it is omitted from the model.
-/

namespace Clunk

/-- `OrderSide` from `order.h`. -/
inductive OrderSide : Type
  | BUY
  | SELL
  deriving DecidableEq, Repr

/-- `Order` from `order.h` (id, side, price, size; timestamp omitted, see
module comment). -/
structure Order : Type where
  id : String
  side : OrderSide
  price : ℚ
  size : ℚ
  deriving DecidableEq, Repr

/-- Exact value of `std::numeric_limits<double>::epsilon()`. -/
def dblEpsilon : ℚ := 1 / 2 ^ 52

/-- Exact value of `std::numeric_limits<double>::max()`. -/
def dblMax : ℚ := (2 ^ 53 - 1) * 2 ^ 971

/-- Lookup in an association list: first entry with the given key (models
`map::find` / `unordered_map::find`). -/
def alFind {κ α : Type} [DecidableEq κ] (k : κ) : List (κ × α) → Option α
  | [] => none
  | e :: t => if e.1 = k then some e.2 else alFind k t

/-- Remove the first entry with the given key (models `map::erase`). -/
def alErase {κ α : Type} [DecidableEq κ] (k : κ) : List (κ × α) → List (κ × α)
  | [] => []
  | e :: t => if e.1 = k then t else e :: alErase k t

/-- Apply `f` to the value of the first entry with the given key (models an
in-place mutation through a `find` iterator). -/
def alAdjust {κ α : Type} [DecidableEq κ] (k : κ) (f : α → α) :
    List (κ × α) → List (κ × α)
  | [] => []
  | e :: t => if e.1 = k then (e.1, f e.2) :: t else e :: alAdjust k f t

/-- `PriceLevel` from `price_level.h`: price, incrementally maintained
`total_size_`, and the `unordered_map` of orders keyed by order id. -/
structure PriceLevel : Type where
  price : ℚ
  total_size : ℚ
  orders : List (String × Order)
  deriving DecidableEq, Repr

namespace PriceLevel

/-- `PriceLevel::PriceLevel(double price)`. -/
def mkLevel (price : ℚ) : PriceLevel := ⟨price, 0, []⟩

/-- `PriceLevel::findOrder`. -/
def findOrder (l : PriceLevel) (order_id : String) : Option Order :=
  alFind order_id l.orders

/-- `PriceLevel::addOrder` (price_level.cpp lines 9-25): reject an order whose
price differs from the level price by more than machine epsilon, reject a
duplicate id, otherwise store the order and grow `total_size_`. -/
def addOrder (l : PriceLevel) (o : Order) : Bool × PriceLevel :=
  if |o.price - l.price| > dblEpsilon then (false, l)
  else if (alFind o.id l.orders).isSome then (false, l)
  else (true, { l with orders := l.orders ++ [(o.id, o)],
                       total_size := l.total_size + o.size })

/-- `PriceLevel::removeOrder` (price_level.cpp lines 27-40). -/
def removeOrder (l : PriceLevel) (order_id : String) : Bool × PriceLevel :=
  match alFind order_id l.orders with
  | none => (false, l)
  | some o => (true, { l with orders := alErase order_id l.orders,
                              total_size := l.total_size - o.size })

/-- `PriceLevel::updateOrder` (price_level.cpp lines 42-55): set the stored
order's size to `new_size` (whatever its sign) and adjust `total_size_` by the
difference.  It does NOT remove the order for `new_size ≤ 0`. -/
def updateOrder (l : PriceLevel) (order_id : String) (new_size : ℚ) :
    Bool × PriceLevel :=
  match alFind order_id l.orders with
  | none => (false, l)
  | some o =>
    (true, { l with orders := alAdjust order_id (fun x => { x with size := new_size }) l.orders,
                    total_size := l.total_size - o.size + new_size })

/-- `PriceLevel::isEmpty`. -/
def isEmpty (l : PriceLevel) : Bool := l.orders.isEmpty

/-- `PriceLevel::getOrderCount`. -/
def getOrderCount (l : PriceLevel) : Nat := l.orders.length

/-- `PriceLevel::getTotalSize`. -/
def getTotalSize (l : PriceLevel) : ℚ := l.total_size

end PriceLevel

/-- Insert into the bid map: `std::map<double, _, std::greater<>>` keeps keys
in descending order; the new key is assumed absent (the caller checked). -/
def bidInsert {α : Type} (k : ℚ) (v : α) : List (ℚ × α) → List (ℚ × α)
  | [] => [(k, v)]
  | e :: t => if k > e.1 then (k, v) :: e :: t else e :: bidInsert k v t

/-- Insert into the ask map: `std::map<double, _>` keeps keys ascending. -/
def askInsert {α : Type} (k : ℚ) (v : α) : List (ℚ × α) → List (ℚ × α)
  | [] => [(k, v)]
  | e :: t => if k < e.1 then (k, v) :: e :: t else e :: askInsert k v t

/-- `OrderBook` from `order_book.h`: the two price-ordered level maps and the
id index `orders_` (symbol tag omitted: it is opaque to every operation). -/
structure OrderBook : Type where
  bid_levels : List (ℚ × PriceLevel)
  ask_levels : List (ℚ × PriceLevel)
  orders : List (String × Order)
  deriving DecidableEq, Repr

namespace OrderBook

/-- The level map of a side (the C++ code duplicates each operation textually
for `bid_levels_` and `ask_levels_`; the model factors the common text). -/
def sideLevels (b : OrderBook) : OrderSide → List (ℚ × PriceLevel)
  | .BUY => b.bid_levels
  | .SELL => b.ask_levels

/-- Replace the level map of a side. -/
def setSide (b : OrderBook) : OrderSide → List (ℚ × PriceLevel) → OrderBook
  | .BUY, ls => { b with bid_levels := ls }
  | .SELL, ls => { b with ask_levels := ls }

/-- The ordered-map insertion used by a side. -/
def insFor : OrderSide → ℚ → PriceLevel → List (ℚ × PriceLevel) → List (ℚ × PriceLevel)
  | .BUY => bidInsert
  | .SELL => askInsert

/-- The common per-side body of `OrderBook::addOrder` (order_book.cpp lines
25-47): find or create the price level and add the order to it; the result of
`PriceLevel::addOrder` is ignored by the C++ code. -/
def addToLevels (ins : ℚ → PriceLevel → List (ℚ × PriceLevel) → List (ℚ × PriceLevel))
    (levels : List (ℚ × PriceLevel)) (o : Order) : List (ℚ × PriceLevel) :=
  match alFind o.price levels with
  | none => ins o.price ((PriceLevel.mkLevel o.price).addOrder o).2 levels
  | some _ => alAdjust o.price (fun l => (l.addOrder o).2) levels

/-- The common per-side body of `OrderBook::removeOrder` (order_book.cpp lines
70-91): remove the order from its level and evict the level if it became
empty; a missing level is silently skipped. -/
def removeFromLevels (levels : List (ℚ × PriceLevel)) (o : Order)
    (order_id : String) : List (ℚ × PriceLevel) :=
  match alFind o.price levels with
  | none => levels
  | some l =>
    let r := l.removeOrder order_id
    if r.2.isEmpty then alErase o.price levels
    else alAdjust o.price (fun _ => r.2) levels

/-- The common per-side body of `OrderBook::modifyOrder` (order_book.cpp lines
114-126): forward to `PriceLevel::updateOrder`; `success` stays false if the
level is missing. -/
def updateInLevels (levels : List (ℚ × PriceLevel)) (o : Order)
    (order_id : String) (new_size : ℚ) : Bool × List (ℚ × PriceLevel) :=
  match alFind o.price levels with
  | none => (false, levels)
  | some l =>
    let r := l.updateOrder order_id new_size
    (r.1, alAdjust o.price (fun _ => r.2) levels)

/-- `OrderBook::addOrder` (order_book.cpp lines 12-56). -/
def addOrder (b : OrderBook) (o : Order) : Bool × OrderBook :=
  if (alFind o.id b.orders).isSome then (false, b)
  else
    let b1 := b.setSide o.side (addToLevels (insFor o.side) (b.sideLevels o.side) o)
    (true, { b1 with orders := b1.orders ++ [(o.id, o)] })

/-- `OrderBook::removeOrder` (order_book.cpp lines 58-100). -/
def removeOrder (b : OrderBook) (order_id : String) : Bool × OrderBook :=
  match alFind order_id b.orders with
  | none => (false, b)
  | some o =>
    let b1 := b.setSide o.side (removeFromLevels (b.sideLevels o.side) o order_id)
    (true, { b1 with orders := alErase order_id b1.orders })

/-- `OrderBook::modifyOrder` (order_book.cpp lines 102-134).  The level
mutates the shared `Order` object through `setSize`; the id index holds the
same object, so on success the index copy is updated as well. -/
def modifyOrder (b : OrderBook) (order_id : String) (new_size : ℚ) :
    Bool × OrderBook :=
  match alFind order_id b.orders with
  | none => (false, b)
  | some o =>
    let r := updateInLevels (b.sideLevels o.side) o order_id new_size
    let b1 := b.setSide o.side r.2
    if r.1 then
      (true, { b1 with orders := alAdjust order_id (fun x => { x with size := new_size }) b1.orders })
    else (false, b1)

/-- `OrderBook::getBestBid` (order_book.cpp lines 136-144): first key of the
descending bid map, `0.0` when the side is empty. -/
def getBestBid (b : OrderBook) : ℚ :=
  match b.bid_levels with
  | [] => 0
  | e :: _ => e.1

/-- `OrderBook::getBestAsk` (order_book.cpp lines 146-154): first key of the
ascending ask map, `std::numeric_limits<double>::max()` when empty. -/
def getBestAsk (b : OrderBook) : ℚ :=
  match b.ask_levels with
  | [] => dblMax
  | e :: _ => e.1

/-- `OrderBook::getSpread` (order_book.cpp lines 156-165). -/
def getSpread (b : OrderBook) : ℚ :=
  if b.getBestBid > 0 ∧ b.getBestAsk < dblMax then b.getBestAsk - b.getBestBid
  else 0

/-- `OrderBook::getMidpointPrice` (order_book.cpp lines 195-204). -/
def getMidpointPrice (b : OrderBook) : ℚ :=
  if b.getBestBid > 0 ∧ b.getBestAsk < dblMax then (b.getBestBid + b.getBestAsk) / 2
  else 0

/-- `OrderBook::getOrder`. -/
def getOrder (b : OrderBook) (order_id : String) : Option Order :=
  alFind order_id b.orders

/-- `OrderBook::getOrderCount`. -/
def getOrderCount (b : OrderBook) : Nat := b.orders.length

/-- `OrderBook::getBidLevelCount`. -/
def getBidLevelCount (b : OrderBook) : Nat := b.bid_levels.length

/-- `OrderBook::getAskLevelCount`. -/
def getAskLevelCount (b : OrderBook) : Nat := b.ask_levels.length

/-- `OrderBook::getBidLevels(depth)` (order_book.cpp lines 167-179). -/
def getBidLevels (b : OrderBook) (depth : Nat) : List (ℚ × ℚ) :=
  (b.bid_levels.take depth).map (fun e => (e.1, e.2.total_size))

/-- `OrderBook::getAskLevels(depth)` (order_book.cpp lines 181-193). -/
def getAskLevels (b : OrderBook) (depth : Nat) : List (ℚ × ℚ) :=
  (b.ask_levels.take depth).map (fun e => (e.1, e.2.total_size))

/-- Modelled from the spec: `OrderBook::clear()` is declared in
`order_book.h` and called by the ticker path, but its definition is not in the
repository sources; the spec says `clear()` "removes all state". -/
def clear (_b : OrderBook) : OrderBook := ⟨[], [], []⟩

/-- `OrderBook::processL3Update` (order_book.cpp lines 232-250): dispatch on
the event type string. -/
def processL3Update (b : OrderBook) (type : String) (order_id : String)
    (side : OrderSide) (price size : ℚ) : OrderBook :=
  if type = "open" ∨ type = "received" then
    (b.addOrder ⟨order_id, side, price, size⟩).2
  else if type = "match" ∨ type = "change" then
    (b.modifyOrder order_id size).2
  else if type = "done" then
    (b.removeOrder order_id).2
  else b

end OrderBook

/-- A freshly constructed `OrderBook` (empty maps). -/
def emptyBook : OrderBook := ⟨[], [], []⟩

/-!
Feed handler (`coinbase_handler.cpp`, the level2/ticker revision).

Message fields are modelled after parsing: a numeric field is `Option ℚ`,
where `none` models both a missing JSON field and a string `std::stod`
rejects — the two C++ paths differ only in the log line, and both leave the
book untouched at that point.  The registry (symbol → book) is out of scope:
messages act on the one book the handler resolved.
-/

/-- One entry of a snapshot's `bids`/`asks` array: `[price, size, order_id?]`.
`priceRaw` is the raw price string, used for the fallback order id when the
entry has no third element. -/
structure SnapEntry : Type where
  price : Option ℚ
  size : Option ℚ
  priceRaw : String
  entryId : Option String
  deriving DecidableEq, Repr

/-- A `snapshot` message.  The `has*` flags model `j.contains(...)`. -/
structure SnapMsg : Type where
  has_product_id : Bool
  has_bids : Bool
  has_asks : Bool
  bids : List SnapEntry
  asks : List SnapEntry
  deriving DecidableEq, Repr

/-- An L3 message as dispatched by `processL3Update` in the handler
(coinbase_handler.cpp lines 458-559).  Each field is `none` when missing or
unparsable. -/
inductive L3Msg : Type
  | openMsg (order_id : Option String) (side : Option OrderSide)
      (price : Option ℚ) (size : Option ℚ)
  | doneMsg (order_id : Option String)
  | matchMsg (maker_order_id : Option String) (size : Option ℚ)
  | changeMsg (order_id : Option String) (new_size : Option ℚ)
  deriving DecidableEq, Repr

/-- A `ticker` message (coinbase_handler.cpp lines 561-633).  `sequence` is
`none` when the field is missing or is neither a number nor a string. -/
structure TickerMsg : Type where
  best_bid : Option ℚ
  best_bid_size : Option ℚ
  best_ask : Option ℚ
  best_ask_size : Option ℚ
  sequence : Option String
  deriving DecidableEq, Repr

/-- An inbound frame after `handleMessage`'s type dispatch.  `otherMsg`
stands for `subscriptions`, `error`, heartbeats and unknown types, none of
which touch the book. -/
inductive InboundMsg : Type
  | snapshot (m : SnapMsg)
  | l3 (m : L3Msg)
  | ticker (m : TickerMsg)
  | otherMsg
  deriving DecidableEq, Repr

/-- The body of one snapshot loop (coinbase_handler.cpp lines 416-430 for
bids, 433-447 for asks): parse each entry and `addOrder` it; a `std::stod`
failure throws, which aborts the whole loop (the `catch` only logs).  Returns
the book as mutated so far plus an abort flag. -/
def applySnapEntries (side : OrderSide) (idPre : String) :
    OrderBook → List SnapEntry → OrderBook × Bool
  | b, [] => (b, false)
  | b, e :: rest =>
    match e.price, e.size with
    | some p, some sz =>
      let oid := match e.entryId with
        | some i => i
        | none => idPre ++ e.priceRaw
      applySnapEntries side idPre (b.addOrder ⟨oid, side, p, sz⟩).2 rest
    | _, _ => (b, true)

/-- `CoinbaseHandler::processSnapshot` (coinbase_handler.cpp lines 387-456):
check `product_id`, `bids`, `asks` are present, then add every entry of both
arrays to the existing book.  There is no `clear()`: the prior book state is
kept. -/
def processSnapshot (b : OrderBook) (m : SnapMsg) : OrderBook :=
  if m.has_product_id = false then b
  else if m.has_bids = false ∨ m.has_asks = false then b
  else
    let r := applySnapEntries OrderSide.BUY "bid-" b m.bids
    if r.2 then r.1
    else (applySnapEntries OrderSide.SELL "ask-" r.1 m.asks).1

/-- `CoinbaseHandler::processL3Update` (coinbase_handler.cpp lines 458-559):
field checks, then dispatch into `OrderBook::processL3Update`. -/
def processL3Msg (b : OrderBook) : L3Msg → OrderBook
  | .openMsg oid side price size =>
    match oid, side, price, size with
    | some oid, some s, some p, some sz => b.processL3Update "open" oid s p sz
    | _, _, _, _ => b
  | .doneMsg oid =>
    match oid with
    | some oid => b.processL3Update "done" oid OrderSide.BUY 0 0
    | none => b
  | .matchMsg maker size =>
    match maker, size with
    | some maker, some sz =>
      match b.getOrder maker with
      | some maker_order =>
        let new_size := maker_order.size - sz
        if new_size ≤ 0 then
          b.processL3Update "done" maker maker_order.side 0 0
        else
          b.processL3Update "change" maker maker_order.side maker_order.price new_size
      | none => b
    | _, _ => b
  | .changeMsg oid new_size =>
    match oid, new_size with
    | some oid, some sz =>
      match b.getOrder oid with
      | some o => b.processL3Update "change" oid o.side o.price sz
      | none => b
    | _, _ => b

/-- `CoinbaseHandler::processTicker` (coinbase_handler.cpp lines 561-633):
parse best bid/ask and the sequence (any failure throws before the book is
touched), then `clear()` the book and insert the two synthetic orders
`bid-<seq>` and `ask-<seq>`. -/
def processTicker (b : OrderBook) (m : TickerMsg) : OrderBook :=
  match m.best_bid, m.best_bid_size, m.best_ask, m.best_ask_size, m.sequence with
  | some bb, some bbs, some ba, some bas, some seq =>
    let bid_order : Order := ⟨"bid-" ++ seq, OrderSide.BUY, bb, bbs⟩
    let ask_order : Order := ⟨"ask-" ++ seq, OrderSide.SELL, ba, bas⟩
    ((b.clear.addOrder bid_order).2.addOrder ask_order).2
  | _, _, _, _, _ => b

/-- `CoinbaseHandler::handleMessage` (coinbase_handler.cpp lines 338-385)
restricted to its effect on the book.  The ticker branch is guarded by the
`contains` checks on `product_id`, `best_bid`, `best_ask`, `best_bid_size`,
`best_ask_size`; the model folds the `product_id` check into the field
options. -/
def handleMsg (b : OrderBook) : InboundMsg → OrderBook
  | .snapshot m => processSnapshot b m
  | .l3 m => processL3Msg b m
  | .ticker m =>
    if m.best_bid.isSome ∧ m.best_ask.isSome ∧ m.best_bid_size.isSome ∧ m.best_ask_size.isSome then
      processTicker b m
    else b
  | .otherMsg => b

/-- A message `handleMessage` is required (by the spec) to drop whole:
some required field is missing or (for L3/ticker numerics) malformed. -/
def msgDropped : InboundMsg → Prop
  | .snapshot m => m.has_product_id = false ∨ m.has_bids = false ∨ m.has_asks = false
  | .l3 (.openMsg oid side price size) =>
      oid = none ∨ side = none ∨ price = none ∨ size = none
  | .l3 (.doneMsg oid) => oid = none
  | .l3 (.matchMsg maker size) => maker = none ∨ size = none
  | .l3 (.changeMsg oid new_size) => oid = none ∨ new_size = none
  | .ticker m =>
      m.best_bid = none ∨ m.best_bid_size = none ∨ m.best_ask = none ∨
      m.best_ask_size = none ∨ m.sequence = none
  | .otherMsg => True

/-!
Microstructure metrics (`console_visualizer` `calculateHFTMetrics`).
The function receives the level snapshots `(price, aggregated size)` of both
sides, the asks in ascending price order.
-/

/-- Total volume of one side's snapshot: `Σ size`. -/
def totalVolume (levels : List (ℚ × ℚ)) : ℚ := (levels.map (fun e => e.2)).sum

/-- The ask-walk of the impact estimate (`calculateHFTMetrics`, the
`for` loop over `asks`): accumulate sizes, remembering the last visited
price, and stop at the first level where the accumulated volume reaches
`target`; if the walk exhausts the list the last price stands. -/
def impactWalk (target : ℚ) : ℚ → ℚ → List (ℚ × ℚ) → ℚ
  | _, impact, [] => impact
  | cum, _, e :: rest =>
    if cum + e.2 ≥ target then e.1
    else impactWalk target (cum + e.2) e.1 rest

/-- `price_impact_1pct_` as computed by `calculateHFTMetrics` (the code walks
the asks for a market order of 1% of the total volume and reports the move in
PERCENT, i.e. multiplied by 100).  `none` when either side is empty (the
function returns early and the metric keeps its previous value). -/
def price_impact_1pct (bids asks : List (ℚ × ℚ)) : Option ℚ :=
  match bids, asks with
  | [], _ => none
  | _, [] => none
  | _ :: _, a :: arest =>
    let best_ask := a.1
    let market_order_size := (totalVolume bids + totalVolume asks) * (1 / 100)
    let impact_price := impactWalk market_order_size 0 best_ask (a :: arest)
    some ((impact_price - best_ask) / best_ask * 100)

/-- The running totals of the ask sizes after each level (for the spec-side
reading of the walk). -/
def runningTotals (asks : List (ℚ × ℚ)) : List ℚ :=
  (List.range asks.length).map (fun i => totalVolume (asks.take (i + 1)))

/-- Modelled from the spec's words (§4.6): "Walk the ask side accumulating
size until `Σ size ≥ 0.01 · (Σ bid + Σ ask)`"; the reached price is the price
of the first level whose running total meets the threshold (the last level if
none does). -/
def specReached (threshold : ℚ) (asks : List (ℚ × ℚ)) (fallback : ℚ) : ℚ :=
  match (asks.zip (runningTotals asks)).find? (fun e => threshold ≤ e.2) with
  | some e => e.1.1
  | none => ((asks.map (fun e => e.1)).getLast? ).getD fallback

/-- Modelled from the spec's words (§4.6): `impact_1pct` "report
`(reached_price − best_ask)/best_ask`" — the claim's formula, with no
percent scaling. -/
def spec_impact_1pct (bids asks : List (ℚ × ℚ)) : ℚ :=
  match asks with
  | [] => 0
  | a :: _ =>
    let best_ask := a.1
    let threshold := (totalVolume bids + totalVolume asks) * (1 / 100)
    (specReached threshold asks best_ask - best_ask) / best_ask

/-!  Operation vocabularies for the quantified invariants. -/

/-- One `PriceLevel` operation (claim about §4.2 sequences). -/
inductive LevelOp : Type
  | add (o : Order)
  | remove (order_id : String)
  | update (order_id : String) (new_size : ℚ)
  deriving DecidableEq, Repr

/-- Apply one `PriceLevel` operation (the `bool` result is dropped). -/
def applyLevelOp (l : PriceLevel) : LevelOp → PriceLevel
  | .add o => (l.addOrder o).2
  | .remove oid => (l.removeOrder oid).2
  | .update oid sz => (l.updateOrder oid sz).2

/-- One `OrderBook` operation: the public mutators plus raw L3 events. -/
inductive BookOp : Type
  | add (o : Order)
  | remove (order_id : String)
  | modify (order_id : String) (new_size : ℚ)
  | l3 (type : String) (order_id : String) (side : OrderSide) (price size : ℚ)
  deriving DecidableEq, Repr

/-- Apply one `OrderBook` operation (the `bool` result is dropped). -/
def applyBookOp (b : OrderBook) : BookOp → OrderBook
  | .add o => (b.addOrder o).2
  | .remove oid => (b.removeOrder oid).2
  | .modify oid sz => (b.modifyOrder oid sz).2
  | .l3 ty oid side price size => b.processL3Update ty oid side price size

/-!  Well-formedness of a book (the structural facts every reachable book
satisfies); used as the induction invariant. -/

/-- Sum of the per-order sizes stored at a level. -/
def levelSizeSum (l : PriceLevel) : ℚ := (l.orders.map (fun e => e.2.size)).sum

/-- Per-entry well-formedness of a level map entry on a given side, relative
to the book's id index: the level's price matches its key, the level is
non-empty (empty levels are evicted), its order ids are unique, and every
stored order is keyed by its id, belongs to this side and price, and is the
very object the id index holds (shared pointer). -/
def levelEntryWF (index : List (String × Order)) (side : OrderSide)
    (e : ℚ × PriceLevel) : Prop :=
  e.2.price = e.1 ∧ e.2.orders ≠ [] ∧ (e.2.orders.map Prod.fst).Nodup ∧
  ∀ oe ∈ e.2.orders,
    oe.1 = oe.2.id ∧ oe.2.side = side ∧ oe.2.price = e.1 ∧
    alFind oe.1 index = some oe.2

/-- The id index entry is linked to a live level that stores the same order
object. -/
def linkedOrder (b : OrderBook) (oe : String × Order) : Prop :=
  (alFind oe.2.price (b.sideLevels oe.2.side)).bind
    (fun l => alFind oe.1 l.orders) = some oe.2

/-- Well-formedness of a book. -/
def bookWF (b : OrderBook) : Prop :=
  (b.orders.map Prod.fst).Nodup ∧
  (b.bid_levels.map Prod.fst).Nodup ∧
  (b.ask_levels.map Prod.fst).Nodup ∧
  (∀ oe ∈ b.orders, oe.1 = oe.2.id ∧ linkedOrder b oe) ∧
  (∀ e ∈ b.bid_levels, levelEntryWF b.orders OrderSide.BUY e) ∧
  (∀ e ∈ b.ask_levels, levelEntryWF b.orders OrderSide.SELL e)

/-- Sum of per-level order counts over both sides. -/
def levelCountSum (b : OrderBook) : Nat :=
  ((b.bid_levels.map (fun e => e.2.orders.length)).sum) +
  ((b.ask_levels.map (fun e => e.2.orders.length)).sum)

/-- The induction invariant: well-formed and the id index counts exactly the
orders resting in levels. -/
def bookInv (b : OrderBook) : Prop :=
  bookWF b ∧ b.getOrderCount = levelCountSum b

instance decidableLevelEntryWF (index : List (String × Order)) (side : OrderSide)
    (e : ℚ × PriceLevel) : Decidable (levelEntryWF index side e) := by
  unfold levelEntryWF; infer_instance

instance decidableLinkedOrder (b : OrderBook) (oe : String × Order) :
    Decidable (linkedOrder b oe) := by
  unfold linkedOrder; infer_instance

instance decidableBookWF (b : OrderBook) : Decidable (bookWF b) := by
  unfold bookWF; infer_instance

instance decidableBookInv (b : OrderBook) : Decidable (bookInv b) := by
  unfold bookInv; infer_instance

instance decidableMsgDropped (m : InboundMsg) : Decidable (msgDropped m) := by
  cases m with
  | snapshot m => unfold msgDropped; infer_instance
  | l3 m => cases m <;> (unfold msgDropped; infer_instance)
  | ticker m => unfold msgDropped; infer_instance
  | otherMsg => unfold msgDropped; infer_instance
/-- The side-indexed reformulation of `bookWF` used in the preservation
proofs. -/
def bookWFS (b : OrderBook) : Prop :=
  (b.orders.map Prod.fst).Nodup ∧
  (∀ s : OrderSide, ((b.sideLevels s).map Prod.fst).Nodup) ∧
  (∀ oe ∈ b.orders, oe.1 = oe.2.id ∧ linkedOrder b oe) ∧
  (∀ s : OrderSide, ∀ e ∈ b.sideLevels s, levelEntryWF b.orders s e)

/-- The `PriceLevel` invariant: the incrementally maintained `total_size_`
equals the sum of the stored order sizes. -/
def levelInv (l : PriceLevel) : Prop := l.total_size = levelSizeSum l

/-!  Concrete fixtures used by witnesses and counterexamples. -/

/-- A well-formed book holding one resting bid: order "a", BUY, 100, 2
(exactly the state `addOrder` produces from a fresh book). -/
def demoBook : OrderBook :=
  ⟨[(100, ⟨100, 2, [("a", ⟨"a", OrderSide.BUY, 100, 2⟩)]⟩)], [],
   [("a", ⟨"a", OrderSide.BUY, 100, 2⟩)]⟩

/-- A fully well-formed snapshot message listing one bid and one ask, neither
with id "a". -/
def demoSnap : SnapMsg :=
  ⟨true, true, true,
   [⟨some 50, some 1, "50", some "b1"⟩],
   [⟨some 60, some 1, "60", some "s1"⟩]⟩

/-- A snapshot whose second bid entry has an unparsable price. -/
def demoBadSnap : SnapMsg :=
  ⟨true, true, true,
   [⟨some 100, some 1, "100", some "g1"⟩, ⟨none, some 2, "xx", some "g2"⟩],
   []⟩

/-- A fully populated ticker frame. -/
def demoTicker : TickerMsg := ⟨some 100, some 1, some 101, some 2, some "7"⟩

/-!  Association-list lemmas. -/

section ALemmas

variable {κ α : Type} [DecidableEq κ]

theorem alFind_nil {k : κ} : alFind (α := α) k [] = none := rfl

theorem alFind_eq_none_iff {k : κ} {l : List (κ × α)} :
    alFind k l = none ↔ ∀ e ∈ l, e.1 ≠ k := by
  induction l with
  | nil => simp [alFind]
  | cons e l ih =>
    obtain ⟨a, w⟩ := e
    by_cases ha : a = k <;> simp [alFind, ha, ih]

theorem alFind_mem {k : κ} {v : α} {l : List (κ × α)}
    (h : alFind k l = some v) : (k, v) ∈ l := by
  induction l with
  | nil => simp [alFind] at h
  | cons e l ih =>
    obtain ⟨a, w⟩ := e
    by_cases ha : a = k
    · subst ha
      simp [alFind] at h
      subst h
      exact List.mem_cons_self _ _
    · simp [alFind, ha] at h
      exact List.mem_cons_of_mem _ (ih h)

theorem alFind_append_some {k : κ} {v : α} {l t : List (κ × α)}
    (h : alFind k l = some v) : alFind k (l ++ t) = some v := by
  induction l with
  | nil => simp [alFind] at h
  | cons e l ih =>
    obtain ⟨a, w⟩ := e
    by_cases ha : a = k <;> simp [alFind, ha] at h ⊢
    · exact h
    · exact ih h

theorem alFind_append_none {k : κ} {l t : List (κ × α)}
    (h : alFind k l = none) : alFind k (l ++ t) = alFind k t := by
  induction l with
  | nil => simp
  | cons e l ih =>
    obtain ⟨a, w⟩ := e
    by_cases ha : a = k <;> simp [alFind, ha] at h ⊢
    exact ih h

theorem alErase_of_none {k : κ} {l : List (κ × α)}
    (h : alFind k l = none) : alErase k l = l := by
  induction l with
  | nil => rfl
  | cons e l ih =>
    obtain ⟨a, w⟩ := e
    by_cases ha : a = k <;> simp [alFind, ha] at h <;> simp [alErase, ha]
    exact ih h

theorem alErase_append_of_none {k : κ} {v : α} {l : List (κ × α)}
    (h : alFind k l = none) : alErase k (l ++ [(k, v)]) = l := by
  induction l with
  | nil => simp [alErase]
  | cons e l ih =>
    obtain ⟨a, w⟩ := e
    by_cases ha : a = k <;> simp [alFind, ha] at h <;> simp [alErase, ha]
    exact ih h

theorem alFind_adjust_self {k : κ} {f : α → α} {l : List (κ × α)} :
    alFind k (alAdjust k f l) = (alFind k l).map f := by
  induction l with
  | nil => simp [alFind, alAdjust]
  | cons e l ih =>
    obtain ⟨a, w⟩ := e
    by_cases ha : a = k <;> simp [alAdjust, ha, alFind, ih]

theorem alFind_adjust_ne {k k2 : κ} {f : α → α} {l : List (κ × α)}
    (h : k2 ≠ k) : alFind k (alAdjust k2 f l) = alFind k l := by
  induction l with
  | nil => rfl
  | cons e l ih =>
    obtain ⟨a, w⟩ := e
    by_cases ha : a = k2
    · subst ha
      simp [alAdjust, alFind, h, fun hx : a = k => h hx]
    · by_cases hak : a = k
      · subst hak
        simp [alAdjust, alFind, ha]
      · simp [alAdjust, ha, alFind, hak, ih]

theorem alFind_erase_ne {k k2 : κ} {l : List (κ × α)}
    (h : k2 ≠ k) : alFind k (alErase k2 l) = alFind k l := by
  induction l with
  | nil => rfl
  | cons e l ih =>
    obtain ⟨a, w⟩ := e
    by_cases ha : a = k2
    · subst ha
      simp [alErase, alFind, fun hx : a = k => h hx]
    · by_cases hak : a = k
      · subst hak
        simp [alErase, alFind, ha]
      · simp [alErase, ha, alFind, hak, ih]

theorem alAdjust_of_none {k : κ} {f : α → α} {l : List (κ × α)}
    (h : alFind k l = none) : alAdjust k f l = l := by
  induction l with
  | nil => rfl
  | cons e l ih =>
    obtain ⟨a, w⟩ := e
    by_cases ha : a = k <;> simp [alFind, ha] at h <;> simp [alAdjust, ha]
    exact ih h

theorem alAdjust_adjust {k : κ} {f g : α → α} {l : List (κ × α)} :
    alAdjust k f (alAdjust k g l) = alAdjust k (fun x => f (g x)) l := by
  induction l with
  | nil => rfl
  | cons e l ih =>
    obtain ⟨a, w⟩ := e
    by_cases ha : a = k <;> simp [alAdjust, ha, ih]

theorem alAdjust_eq_self {k : κ} {v : α} {f : α → α} {l : List (κ × α)}
    (h : alFind k l = some v) (hf : f v = v) : alAdjust k f l = l := by
  induction l with
  | nil => simp [alFind] at h
  | cons e l ih =>
    obtain ⟨a, w⟩ := e
    by_cases ha : a = k <;> simp [alFind, ha] at h <;> simp [alAdjust, ha]
    · rw [h, hf]
    · exact ih h

theorem length_alAdjust {k : κ} {f : α → α} {l : List (κ × α)} :
    (alAdjust k f l).length = l.length := by
  induction l with
  | nil => rfl
  | cons e l ih =>
    obtain ⟨a, w⟩ := e
    by_cases ha : a = k <;> simp [alAdjust, ha, ih]

theorem length_alErase {k : κ} {v : α} {l : List (κ × α)}
    (h : alFind k l = some v) : (alErase k l).length + 1 = l.length := by
  induction l with
  | nil => simp [alFind] at h
  | cons e l ih =>
    obtain ⟨a, w⟩ := e
    by_cases ha : a = k <;> simp [alFind, ha] at h <;> simp [alErase, ha]
    exact ih h

theorem mem_alAdjust {k : κ} {f : α → α} {l : List (κ × α)} {e : κ × α}
    (h : e ∈ alAdjust k f l) :
    e ∈ l ∨ ∃ v, alFind k l = some v ∧ e = (k, f v) := by
  induction l with
  | nil => simp [alAdjust] at h
  | cons e2 l ih =>
    obtain ⟨a, w⟩ := e2
    by_cases ha : a = k
    · subst ha
      simp only [alAdjust, if_pos rfl, if_true, eq_self_iff_true, List.mem_cons] at h
      rcases h with h | h
      · refine Or.inr ⟨w, ?_, h⟩
        simp [alFind]
      · exact Or.inl (List.mem_cons_of_mem _ h)
    · simp only [alAdjust, if_neg ha, List.mem_cons] at h
      rcases h with h | h
      · exact Or.inl (List.mem_cons.2 (Or.inl h))
      · rcases ih h with h2 | ⟨v, hv, he⟩
        · exact Or.inl (List.mem_cons_of_mem _ h2)
        · refine Or.inr ⟨v, ?_, he⟩
          simpa [alFind, ha] using hv

theorem alErase_sublist {k : κ} {l : List (κ × α)} : (alErase k l).Sublist l := by
  induction l with
  | nil => simp [alErase]
  | cons e l ih =>
    by_cases he : e.1 = k
    · simp only [alErase, if_pos he]
      exact List.sublist_cons_self e l
    · simp only [alErase, if_neg he]
      exact ih.cons₂ e

theorem mem_alErase {k : κ} {l : List (κ × α)} {e : κ × α}
    (h : e ∈ alErase k l) : e ∈ l :=
  alErase_sublist.mem h

theorem mem_alErase_ne {k : κ} {l : List (κ × α)} {e : κ × α}
    (hn : (l.map Prod.fst).Nodup) (h : e ∈ alErase k l) : e ∈ l ∧ e.1 ≠ k := by
  induction l with
  | nil => simp [alErase] at h
  | cons e2 l ih =>
    obtain ⟨a, w⟩ := e2
    simp only [List.map_cons, List.nodup_cons] at hn
    by_cases ha : a = k
    · subst ha
      simp only [alErase, if_pos rfl] at h
      refine ⟨List.mem_cons_of_mem _ h, ?_⟩
      intro hk
      exact hn.1 (hk ▸ List.mem_map_of_mem Prod.fst h)
    · simp only [alErase, if_neg ha, List.mem_cons] at h
      rcases h with rfl | h
      · exact ⟨List.mem_cons_self _ _, ha⟩
      · rcases ih hn.2 h with ⟨h1, h2⟩
        exact ⟨List.mem_cons_of_mem _ h1, h2⟩

theorem keys_alAdjust {k : κ} {f : α → α} {l : List (κ × α)} :
    (alAdjust k f l).map Prod.fst = l.map Prod.fst := by
  induction l with
  | nil => rfl
  | cons e l ih =>
    obtain ⟨a, w⟩ := e
    by_cases ha : a = k <;> simp [alAdjust, ha, ih]

theorem sum_map_alAdjust {β : Type} [AddCommMonoid β] {k : κ} {v : α}
    {l : List (κ × α)} (f : α → α) (g : κ × α → β)
    (h : alFind k l = some v) :
    ((alAdjust k f l).map g).sum + g (k, v) = (l.map g).sum + g (k, f v) := by
  induction l with
  | nil => simp [alFind] at h
  | cons e l ih =>
    obtain ⟨a, w⟩ := e
    by_cases ha : a = k
    · subst ha
      simp [alFind] at h
      subst h
      simp only [alAdjust, if_pos rfl, if_true, eq_self_iff_true, List.map_cons, List.sum_cons]
      abel
    · simp only [alFind, if_neg ha] at h
      simp only [alAdjust, if_neg ha, List.map_cons, List.sum_cons]
      rw [add_assoc, add_assoc, ih h]

theorem sum_map_alErase {β : Type} [AddCommMonoid β] {k : κ} {v : α}
    {l : List (κ × α)} (g : κ × α → β) (h : alFind k l = some v) :
    ((alErase k l).map g).sum + g (k, v) = (l.map g).sum := by
  induction l with
  | nil => simp [alFind] at h
  | cons e l ih =>
    obtain ⟨a, w⟩ := e
    by_cases ha : a = k
    · subst ha
      simp [alFind] at h
      subst h
      simp only [alErase, if_pos rfl, if_true, eq_self_iff_true, List.map_cons, List.sum_cons]
      exact add_comm _ _
    · simp only [alFind, if_neg ha] at h
      simp only [alErase, if_neg ha, List.map_cons, List.sum_cons]
      rw [add_assoc, ih h]

theorem alFind_isSome_of_mem {k : κ} {v : α} {l : List (κ × α)}
    (h : (k, v) ∈ l) : (alFind k l).isSome := by
  induction l with
  | nil => simp at h
  | cons e l ih =>
    obtain ⟨a, w⟩ := e
    by_cases ha : a = k
    · simp [alFind, ha]
    · rcases List.mem_cons.1 h with h2 | h2
      · exact absurd (congrArg Prod.fst h2).symm ha
      · simpa [alFind, ha] using ih h2

end ALemmas
/-!  Ordered-insert lemmas (`bidInsert` / `askInsert`). -/

section InsLemmas

variable {α : Type}

theorem bidInsert_perm (k : ℚ) (v : α) (l : List (ℚ × α)) :
    (bidInsert k v l).Perm ((k, v) :: l) := by
  induction l with
  | nil => simp [bidInsert]
  | cons e l ih =>
    by_cases hk : k > e.1 <;> simp [bidInsert, hk]
    exact ih.cons e |>.trans (List.Perm.swap (k, v) e l)

theorem askInsert_perm (k : ℚ) (v : α) (l : List (ℚ × α)) :
    (askInsert k v l).Perm ((k, v) :: l) := by
  induction l with
  | nil => simp [askInsert]
  | cons e l ih =>
    by_cases hk : k < e.1 <;> simp [askInsert, hk]
    exact ih.cons e |>.trans (List.Perm.swap (k, v) e l)

theorem alFind_bidInsert_self {k : ℚ} {v : α} {l : List (ℚ × α)}
    (h : alFind k l = none) : alFind k (bidInsert k v l) = some v := by
  induction l with
  | nil => simp [bidInsert, alFind]
  | cons e l ih =>
    by_cases he : e.1 = k <;> simp [alFind, he] at h
    by_cases hk : k > e.1 <;> simp [bidInsert, hk, alFind, he]
    exact ih h

theorem alFind_askInsert_self {k : ℚ} {v : α} {l : List (ℚ × α)}
    (h : alFind k l = none) : alFind k (askInsert k v l) = some v := by
  induction l with
  | nil => simp [askInsert, alFind]
  | cons e l ih =>
    by_cases he : e.1 = k <;> simp [alFind, he] at h
    by_cases hk : k < e.1 <;> simp [askInsert, hk, alFind, he]
    exact ih h

theorem alFind_bidInsert_ne {k k2 : ℚ} {v : α} {l : List (ℚ × α)}
    (h : k ≠ k2) : alFind k2 (bidInsert k v l) = alFind k2 l := by
  induction l with
  | nil => simp [bidInsert, alFind, h]
  | cons e l ih =>
    by_cases hk : k > e.1 <;> simp [bidInsert, hk, alFind, h, ih]

theorem alFind_askInsert_ne {k k2 : ℚ} {v : α} {l : List (ℚ × α)}
    (h : k ≠ k2) : alFind k2 (askInsert k v l) = alFind k2 l := by
  induction l with
  | nil => simp [askInsert, alFind, h]
  | cons e l ih =>
    by_cases hk : k < e.1 <;> simp [askInsert, hk, alFind, h, ih]

theorem alErase_bidInsert {k : ℚ} {v : α} {l : List (ℚ × α)}
    (h : alFind k l = none) : alErase k (bidInsert k v l) = l := by
  induction l with
  | nil => simp [bidInsert, alErase]
  | cons e l ih =>
    by_cases he : e.1 = k <;> simp [alFind, he] at h
    by_cases hk : k > e.1 <;> simp [bidInsert, hk, alErase, he]
    exact ih h

theorem alErase_askInsert {k : ℚ} {v : α} {l : List (ℚ × α)}
    (h : alFind k l = none) : alErase k (askInsert k v l) = l := by
  induction l with
  | nil => simp [askInsert, alErase]
  | cons e l ih =>
    by_cases he : e.1 = k <;> simp [alFind, he] at h
    by_cases hk : k < e.1 <;> simp [askInsert, hk, alErase, he]
    exact ih h

end InsLemmas


/-!  PriceLevel operation lemmas. -/

theorem levelAddOrder_close {l : PriceLevel} {o : Order}
    (h1 : ¬ (|o.price - l.price| > dblEpsilon))
    (hid : alFind o.id l.orders = none) :
    l.addOrder o = (true, { l with orders := l.orders ++ [(o.id, o)],
                                   total_size := l.total_size + o.size }) := by
  simp [PriceLevel.addOrder, h1, hid]

theorem levelAddOrder_success {l : PriceLevel} {o : Order}
    (hp : o.price = l.price) (hid : alFind o.id l.orders = none) :
    l.addOrder o = (true, { l with orders := l.orders ++ [(o.id, o)],
                                   total_size := l.total_size + o.size }) := by
  have h1 : ¬ (|o.price - l.price| > dblEpsilon) := by
    rw [hp, sub_self, abs_zero]
    norm_num [dblEpsilon]
  exact levelAddOrder_close h1 hid

theorem levelAddOrder_orders_mono {l : PriceLevel} {o : Order} {x : String}
    {v : Order} (h : alFind x l.orders = some v) :
    alFind x (l.addOrder o).2.orders = some v := by
  by_cases h1 : |o.price - l.price| > dblEpsilon
  · simpa [PriceLevel.addOrder, h1] using h
  · by_cases h2 : (alFind o.id l.orders).isSome
    · simpa [PriceLevel.addOrder, h1, h2] using h
    · simp only [PriceLevel.addOrder, if_neg h1, Bool.not_eq_true] at *
      simp [h2]
      exact alFind_append_some h

/-- The id set of the level after `addOrder` is either unchanged or grows by
the fresh id at the end. -/
theorem levelAddOrder_orders_cases (l : PriceLevel) (o : Order) :
    (l.addOrder o).2.orders = l.orders ∨
    ((l.addOrder o).2.orders = l.orders ++ [(o.id, o)] ∧ alFind o.id l.orders = none) := by
  by_cases h1 : |o.price - l.price| > dblEpsilon
  · left; simp [PriceLevel.addOrder, h1]
  · by_cases h2 : (alFind o.id l.orders).isSome
    · left; simp [PriceLevel.addOrder, h1, h2]
    · right
      constructor
      · simp [PriceLevel.addOrder, h1, h2]
      · exact Option.not_isSome_iff_eq_none.1 h2

/-!  Side plumbing: `sideLevels` / `setSide` / `insFor`. -/

theorem orders_setSide (b : OrderBook) (s : OrderSide) (ls : List (ℚ × PriceLevel)) :
    (b.setSide s ls).orders = b.orders := by
  cases s <;> rfl

theorem sideLevels_setSide_self (b : OrderBook) (s : OrderSide)
    (ls : List (ℚ × PriceLevel)) : (b.setSide s ls).sideLevels s = ls := by
  cases s <;> rfl

theorem sideLevels_setSide_ne (b : OrderBook) {s s2 : OrderSide}
    (h : s ≠ s2) (ls : List (ℚ × PriceLevel)) :
    (b.setSide s ls).sideLevels s2 = b.sideLevels s2 := by
  cases s <;> cases s2 <;> simp_all [OrderBook.setSide, OrderBook.sideLevels]

theorem sideLevels_orders_update (b : OrderBook) (x : List (String × Order))
    (s : OrderSide) :
    ({ b with orders := x } : OrderBook).sideLevels s = b.sideLevels s := by
  cases s <;> rfl

theorem levelCountSum_setSide (b : OrderBook) (s : OrderSide)
    (ls : List (ℚ × PriceLevel)) :
    levelCountSum (b.setSide s ls) +
      ((b.sideLevels s).map (fun e => e.2.orders.length)).sum
    = levelCountSum b + (ls.map (fun e => e.2.orders.length)).sum := by
  cases s <;> simp [OrderBook.setSide, OrderBook.sideLevels, levelCountSum] <;> omega

theorem levelCountSum_orders_update (b : OrderBook) (x : List (String × Order)) :
    levelCountSum ({ b with orders := x } : OrderBook) = levelCountSum b := rfl

theorem bookWF_iff_S (b : OrderBook) : bookWF b ↔ bookWFS b := by
  unfold bookWF bookWFS
  constructor
  · rintro ⟨h1, h2, h3, h4, h5, h6⟩
    refine ⟨h1, ?_, h4, ?_⟩
    · intro s; cases s
      · exact h2
      · exact h3
    · intro s; cases s
      · exact h5
      · exact h6
  · rintro ⟨h1, h2, h3, h4⟩
    exact ⟨h1, h2 .BUY, h2 .SELL, h3, h4 .BUY, h4 .SELL⟩

theorem insFor_perm (s : OrderSide) (k : ℚ) (v : PriceLevel)
    (l : List (ℚ × PriceLevel)) :
    (OrderBook.insFor s k v l).Perm ((k, v) :: l) := by
  cases s
  · exact bidInsert_perm k v l
  · exact askInsert_perm k v l

theorem alFind_insFor_self (s : OrderSide) {k : ℚ} {v : PriceLevel}
    {l : List (ℚ × PriceLevel)} (h : alFind k l = none) :
    alFind k (OrderBook.insFor s k v l) = some v := by
  cases s
  · exact alFind_bidInsert_self h
  · exact alFind_askInsert_self h

theorem alFind_insFor_ne (s : OrderSide) {k k2 : ℚ} {v : PriceLevel}
    {l : List (ℚ × PriceLevel)} (h : k ≠ k2) :
    alFind k2 (OrderBook.insFor s k v l) = alFind k2 l := by
  cases s
  · exact alFind_bidInsert_ne h
  · exact alFind_askInsert_ne h

theorem alErase_insFor (s : OrderSide) {k : ℚ} {v : PriceLevel}
    {l : List (ℚ × PriceLevel)} (h : alFind k l = none) :
    alErase k (OrderBook.insFor s k v l) = l := by
  cases s
  · exact alErase_bidInsert h
  · exact alErase_askInsert h

theorem mem_insFor {s : OrderSide} {k : ℚ} {v : PriceLevel}
    {l : List (ℚ × PriceLevel)} {e : ℚ × PriceLevel}
    (h : e ∈ OrderBook.insFor s k v l) : e = (k, v) ∨ e ∈ l := by
  have := (insFor_perm s k v l).mem_iff.1 h
  simpa using this

theorem keys_insFor_nodup {s : OrderSide} {k : ℚ} {v : PriceLevel}
    {l : List (ℚ × PriceLevel)} (hn : (l.map Prod.fst).Nodup)
    (h : alFind k l = none) :
    ((OrderBook.insFor s k v l).map Prod.fst).Nodup := by
  have hp := (insFor_perm s k v l).map Prod.fst
  refine hp.nodup_iff.2 ?_
  simp only [List.map_cons, List.nodup_cons]
  refine ⟨?_, hn⟩
  intro hk
  rcases List.mem_map.1 hk with ⟨e, he, hke⟩
  exact (alFind_eq_none_iff.1 h e he) hke

theorem sum_map_insFor {β : Type} [AddCommMonoid β] (s : OrderSide) (k : ℚ)
    (v : PriceLevel) (l : List (ℚ × PriceLevel)) (g : ℚ × PriceLevel → β) :
    ((OrderBook.insFor s k v l).map g).sum = g (k, v) + (l.map g).sum := by
  have hp := (insFor_perm s k v l).map g
  rw [hp.sum_eq]
  simp

theorem alFind_addToLevels_ne {ins : ℚ → PriceLevel → List (ℚ × PriceLevel) → List (ℚ × PriceLevel)}
    {L : List (ℚ × PriceLevel)} {o : Order} {k : ℚ} (s : OrderSide)
    (hins : ins = OrderBook.insFor s) (hk : k ≠ o.price) :
    alFind k (OrderBook.addToLevels ins L o) = alFind k L := by
  subst hins
  unfold OrderBook.addToLevels
  cases hL : alFind o.price L
  · exact alFind_insFor_ne s (fun h => hk h.symm)
  · exact alFind_adjust_ne (fun h => hk h.symm)


/-!  Preservation of the book invariant. -/

theorem levelEntryWF_mono {index index2 : List (String × Order)}
    {side : OrderSide} {e : ℚ × PriceLevel}
    (hx : ∀ x v, alFind x index = some v → alFind x index2 = some v)
    (h : levelEntryWF index side e) : levelEntryWF index2 side e := by
  obtain ⟨h1, h2, h3, h4⟩ := h
  refine ⟨h1, h2, h3, ?_⟩
  intro oe hoe
  obtain ⟨g1, g2, g3, g4⟩ := h4 oe hoe
  exact ⟨g1, g2, g3, hx _ _ g4⟩

theorem linkedOrder_iff (b : OrderBook) (oe : String × Order) :
    linkedOrder b oe ↔
    ∃ l, alFind oe.2.price (b.sideLevels oe.2.side) = some l ∧
         alFind oe.1 l.orders = some oe.2 := by
  unfold linkedOrder
  exact Option.bind_eq_some

theorem bookInv_empty : bookInv emptyBook := by decide

theorem addToLevels_none {ins : ℚ → PriceLevel → List (ℚ × PriceLevel) → List (ℚ × PriceLevel)}
    {L : List (ℚ × PriceLevel)} {o : Order} (h : alFind o.price L = none) :
    OrderBook.addToLevels ins L o
      = ins o.price ((PriceLevel.mkLevel o.price).addOrder o).2 L := by
  unfold OrderBook.addToLevels
  rw [h]

theorem addToLevels_some {ins : ℚ → PriceLevel → List (ℚ × PriceLevel) → List (ℚ × PriceLevel)}
    {L : List (ℚ × PriceLevel)} {o : Order} {lvl : PriceLevel}
    (h : alFind o.price L = some lvl) :
    OrderBook.addToLevels ins L o
      = alAdjust o.price (fun l => (l.addOrder o).2) L := by
  unfold OrderBook.addToLevels
  rw [h]

/-- The new level created by the level-miss branch of `OrderBook::addOrder`. -/
theorem mkLevel_addOrder (o : Order) :
    ((PriceLevel.mkLevel o.price).addOrder o).2
      = ⟨o.price, 0 + o.size, [(o.id, o)]⟩ := by
  rw [@levelAddOrder_success (PriceLevel.mkLevel o.price) o rfl rfl]
  rfl

theorem bookInv_addOrder {b : OrderBook} (h : bookInv b) (o : Order) :
    bookInv (b.addOrder o).2 := by
  obtain ⟨hwf, hcnt⟩ := h
  rw [bookWF_iff_S] at hwf
  obtain ⟨hnod, hknod, hlink, hlvl⟩ := hwf
  unfold OrderBook.addOrder
  by_cases hdup : (alFind o.id b.orders).isSome
  · simp only [if_pos hdup]
    exact ⟨(bookWF_iff_S b).2 ⟨hnod, hknod, hlink, hlvl⟩, hcnt⟩
  · have hid : alFind o.id b.orders = none := Option.not_isSome_iff_eq_none.1 hdup
    simp only [if_neg hdup]
    set L := b.sideLevels o.side with hL0
    set L2 := OrderBook.addToLevels (OrderBook.insFor o.side) L o with hL2
    set B2 : OrderBook :=
      { b.setSide o.side L2 with orders := (b.setSide o.side L2).orders ++ [(o.id, o)] } with hB2
    have hBorders : B2.orders = b.orders ++ [(o.id, o)] := by
      rw [hB2, orders_setSide]
    have hBside : ∀ s2 : OrderSide, s2 ≠ o.side → B2.sideLevels s2 = b.sideLevels s2 := by
      intro s2 hne
      rw [hB2, sideLevels_orders_update]
      exact sideLevels_setSide_ne b (fun hx => hne hx.symm) L2
    have hBsideS : B2.sideLevels o.side = L2 := by
      rw [hB2, sideLevels_orders_update, sideLevels_setSide_self]
    have hmono : ∀ x v, alFind x b.orders = some v →
        alFind x B2.orders = some v := by
      intro x v hx
      rw [hBorders]
      exact alFind_append_some hx
    have hfindnew : alFind o.id B2.orders = some o := by
      rw [hBorders, alFind_append_none hid]
      simp [alFind]
    -- the level add succeeds on a found level
    have hsucc : ∀ lvl : PriceLevel, alFind o.price L = some lvl →
        lvl.addOrder o = (true, { lvl with orders := lvl.orders ++ [(o.id, o)],
                                           total_size := lvl.total_size + o.size }) ∧
        alFind o.id lvl.orders = none := by
      intro lvl hfound
      have hment : (o.price, lvl) ∈ L := alFind_mem hfound
      have hWFe := hlvl o.side (o.price, lvl) hment
      have hfresh : alFind o.id lvl.orders = none := by
        cases hfind : alFind o.id lvl.orders with
        | none => rfl
        | some v =>
          have hmem2 := alFind_mem hfind
          have := (hWFe.2.2.2 (o.id, v) hmem2).2.2.2
          rw [hid] at this
          exact absurd this (by simp)
      exact ⟨levelAddOrder_success hWFe.1.symm hfresh, hfresh⟩
    constructor
    · -- well-formedness
      rw [bookWF_iff_S]
      refine ⟨?_, ?_, ?_, ?_⟩
      · -- id index keys nodup
        rw [hBorders]
        simp only [List.map_append, List.map_cons, List.map_nil]
        rw [List.nodup_append]
        refine ⟨hnod, List.nodup_singleton _, ?_⟩
        intro a ha hb
        simp only [List.mem_singleton] at hb
        subst hb
        rcases List.mem_map.1 ha with ⟨e, he, hke⟩
        exact (alFind_eq_none_iff.1 hid e he) hke
      · -- level map keys nodup
        intro s2
        by_cases hss : s2 = o.side
        · subst hss
          rw [hBsideS, hL2]
          cases hfound : alFind o.price L with
          | none =>
            rw [addToLevels_none hfound]
            exact keys_insFor_nodup (hknod o.side) hfound
          | some lvl =>
            rw [addToLevels_some hfound, keys_alAdjust]
            exact hknod o.side
        · rw [hBside s2 hss]
          exact hknod s2
      · -- every index entry is linked
        intro oe hoe
        rw [hBorders] at hoe
        rcases List.mem_append.1 hoe with hoe | hoe
        · obtain ⟨g1, g2⟩ := hlink oe hoe
          refine ⟨g1, ?_⟩
          rw [linkedOrder_iff] at g2 ⊢
          obtain ⟨lvl, hl1, hl2⟩ := g2
          by_cases hside : oe.2.side = o.side
          · rw [hside] at hl1 ⊢
            rw [hBsideS, hL2]
            by_cases hpx : oe.2.price = o.price
            · rw [hpx] at hl1 ⊢
              rw [addToLevels_some hl1]
              refine ⟨(lvl.addOrder o).2, ?_, levelAddOrder_orders_mono hl2⟩
              rw [alFind_adjust_self, hl1]
              rfl
            · rw [alFind_addToLevels_ne o.side rfl hpx]
              exact ⟨lvl, hl1, hl2⟩
          · rw [hBside _ hside]
            exact ⟨lvl, hl1, hl2⟩
        · simp only [List.mem_singleton] at hoe
          subst hoe
          refine ⟨rfl, ?_⟩
          rw [linkedOrder_iff]
          rw [hBsideS, hL2]
          cases hfound : alFind o.price L with
          | none =>
            rw [addToLevels_none hfound]
            refine ⟨((PriceLevel.mkLevel o.price).addOrder o).2,
              alFind_insFor_self o.side hfound, ?_⟩
            rw [mkLevel_addOrder]
            simp [alFind]
          | some lvl =>
            obtain ⟨heq, hfresh⟩ := hsucc lvl hfound
            rw [addToLevels_some hfound]
            refine ⟨(lvl.addOrder o).2, ?_, ?_⟩
            · rw [alFind_adjust_self, hfound]
              rfl
            · rw [heq]
              simp only
              rw [alFind_append_none hfresh]
              simp [alFind]
      · -- level entries well-formed
        intro s2 e he
        by_cases hss : s2 = o.side
        · subst hss
          rw [hBsideS, hL2] at he
          cases hfound : alFind o.price L with
          | none =>
            rw [addToLevels_none hfound] at he
            rcases mem_insFor he with he | he
            · subst he
              rw [mkLevel_addOrder]
              refine ⟨rfl, by simp, by simp, ?_⟩
              intro oe hoe
              simp only [List.mem_singleton] at hoe
              subst hoe
              exact ⟨rfl, rfl, rfl, hfindnew⟩
            · exact levelEntryWF_mono hmono (hlvl o.side e he)
          | some lvl =>
            rw [addToLevels_some hfound] at he
            rcases mem_alAdjust he with he | ⟨lvl2, hfound2, he⟩
            · exact levelEntryWF_mono hmono (hlvl o.side e he)
            · rw [hfound] at hfound2
              injection hfound2 with hx
              subst hx
              subst he
              obtain ⟨heq, hfresh⟩ := hsucc lvl hfound
              have hWFe := hlvl o.side (o.price, lvl) (alFind_mem hfound)
              rw [heq]
              refine ⟨hWFe.1, by simp, ?_, ?_⟩
              · simp only [List.map_append, List.map_cons, List.map_nil]
                rw [List.nodup_append]
                refine ⟨hWFe.2.2.1, List.nodup_singleton _, ?_⟩
                intro a ha hb
                simp only [List.mem_singleton] at hb
                subst hb
                rcases List.mem_map.1 ha with ⟨e2, he2, hke⟩
                exact (alFind_eq_none_iff.1 hfresh e2 he2) hke
              · intro oe hoe
                simp only at hoe
                rcases List.mem_append.1 hoe with hoe | hoe
                · obtain ⟨g1, g2, g3, g4⟩ := hWFe.2.2.2 oe hoe
                  exact ⟨g1, g2, g3, hmono _ _ g4⟩
                · simp only [List.mem_singleton] at hoe
                  subst hoe
                  exact ⟨rfl, rfl, rfl, hfindnew⟩
        · rw [hBside s2 hss] at he
          exact levelEntryWF_mono hmono (hlvl s2 e he)
    · -- the order count matches the level count sum
      have hoc : B2.getOrderCount = b.getOrderCount + 1 := by
        rw [OrderBook.getOrderCount, hBorders]
        simp [OrderBook.getOrderCount]
      have hsum : (L2.map (fun e => e.2.orders.length)).sum
          = (L.map (fun e => e.2.orders.length)).sum + 1 := by
        rw [hL2]
        cases hfound : alFind o.price L with
        | none =>
          rw [addToLevels_none hfound, sum_map_insFor, mkLevel_addOrder]
          simp
          omega
        | some lvl =>
          obtain ⟨heq, hfresh⟩ := hsucc lvl hfound
          rw [addToLevels_some hfound]
          have h2 := sum_map_alAdjust (fun l => (l.addOrder o).2)
            (fun e => e.2.orders.length) hfound
          simp only at h2
          rw [heq] at h2
          simp only [List.length_append, List.length_cons, List.length_nil] at h2
          omega
      have hlc : levelCountSum B2 = levelCountSum b + 1 := by
        have h3 := levelCountSum_setSide b o.side L2
        rw [hB2, levelCountSum_orders_update]
        rw [← hL0] at h3
        omega
      rw [hoc, hlc, hcnt]


theorem mem_alAdjust_ne {κ α : Type} [DecidableEq κ] {k : κ} {f : α → α}
    {l : List (κ × α)} {e : κ × α} (hn : (l.map Prod.fst).Nodup)
    (h : e ∈ alAdjust k f l) :
    (e ∈ l ∧ e.1 ≠ k) ∨ ∃ v, alFind k l = some v ∧ e = (k, f v) := by
  induction l with
  | nil => simp [alAdjust] at h
  | cons e2 l ih =>
    obtain ⟨a, w⟩ := e2
    simp only [List.map_cons, List.nodup_cons] at hn
    by_cases ha : a = k
    · subst ha
      simp only [alAdjust, if_pos rfl, if_true, eq_self_iff_true, List.mem_cons] at h
      rcases h with h | h
      · refine Or.inr ⟨w, ?_, h⟩
        simp [alFind]
      · refine Or.inl ⟨List.mem_cons_of_mem _ h, ?_⟩
        intro hk
        exact hn.1 (hk ▸ List.mem_map_of_mem Prod.fst h)
    · simp only [alAdjust, if_neg ha, List.mem_cons] at h
      rcases h with rfl | h
      · exact Or.inl ⟨List.mem_cons_self _ _, ha⟩
      · rcases ih hn.2 h with ⟨h1, h2⟩ | ⟨v, hv, he⟩
        · exact Or.inl ⟨List.mem_cons_of_mem _ h1, h2⟩
        · refine Or.inr ⟨v, ?_, he⟩
          simpa [alFind, ha] using hv

theorem alFind_eq_of_mem_nodup {κ α : Type} [DecidableEq κ] {k : κ} {v : α}
    {l : List (κ × α)} (hn : (l.map Prod.fst).Nodup) (h : (k, v) ∈ l) :
    alFind k l = some v := by
  induction l with
  | nil => simp at h
  | cons e l ih =>
    obtain ⟨a, w⟩ := e
    simp only [List.map_cons, List.nodup_cons] at hn
    rcases List.mem_cons.1 h with h2 | h2
    · injection h2 with hk hv2
      subst hk
      subst hv2
      simp [alFind]
    · by_cases ha : a = k
      · subst ha
        exact absurd (List.mem_map_of_mem Prod.fst h2) hn.1
      · simpa [alFind, ha] using ih hn.2 h2

theorem alErase_eq_nil {κ α : Type} [DecidableEq κ] {k : κ} {l : List (κ × α)}
    (h : alErase k l = []) : l = [] ∨ ∃ v, l = [(k, v)] := by
  cases l with
  | nil => exact Or.inl rfl
  | cons e t =>
    obtain ⟨a, w⟩ := e
    by_cases ha : a = k
    · subst ha
      simp only [alErase, if_pos rfl, if_true, eq_self_iff_true] at h
      subst h
      exact Or.inr ⟨w, rfl⟩
    · simp [alErase, ha] at h

theorem levelRemoveOrder_found {l : PriceLevel} {order_id : String} {o : Order}
    (h : alFind order_id l.orders = some o) :
    l.removeOrder order_id
      = (true, { l with orders := alErase order_id l.orders,
                        total_size := l.total_size - o.size }) := by
  unfold PriceLevel.removeOrder
  rw [h]

theorem removeFromLevels_none {L : List (ℚ × PriceLevel)} {o : Order}
    {order_id : String} (h : alFind o.price L = none) :
    OrderBook.removeFromLevels L o order_id = L := by
  unfold OrderBook.removeFromLevels
  rw [h]

theorem removeFromLevels_found {L : List (ℚ × PriceLevel)} {o : Order}
    {order_id : String} {lvl : PriceLevel} (h : alFind o.price L = some lvl) :
    OrderBook.removeFromLevels L o order_id
      = if (lvl.removeOrder order_id).2.isEmpty then alErase o.price L
        else alAdjust o.price (fun _ => (lvl.removeOrder order_id).2) L := by
  unfold OrderBook.removeFromLevels
  rw [h]

theorem bookInv_removeOrder {b : OrderBook} (h : bookInv b) (order_id : String) :
    bookInv (b.removeOrder order_id).2 := by
  obtain ⟨hwf, hcnt⟩ := h
  rw [bookWF_iff_S] at hwf
  obtain ⟨hnod, hknod, hlink, hlvl⟩ := hwf
  unfold OrderBook.removeOrder
  cases hfo : alFind order_id b.orders with
  | none => exact ⟨(bookWF_iff_S b).2 ⟨hnod, hknod, hlink, hlvl⟩, hcnt⟩
  | some o =>
    obtain ⟨hido, hlinko⟩ := hlink (order_id, o) (alFind_mem hfo)
    rw [linkedOrder_iff] at hlinko
    obtain ⟨lvl, hl1, hl2⟩ := hlinko
    simp only at hido hl1 hl2
    -- an order with the removed id can only rest in the found level
    have honly : ∀ s2 : OrderSide, ∀ e ∈ b.sideLevels s2, ∀ oe ∈ e.2.orders,
        oe.1 = order_id → s2 = o.side ∧ e = (o.price, lvl) ∧ oe.2 = o := by
      intro s2 e he oe hoe hid2
      obtain ⟨g1, g2, g3, g4⟩ := (hlvl s2 e he).2.2.2 oe hoe
      rw [hid2, hfo] at g4
      injection g4 with g4
      have hside : s2 = o.side := by rw [g4]; exact g2.symm
      have hprice : e.1 = o.price := by rw [g4]; exact g3.symm
      refine ⟨hside, ?_, g4.symm⟩
      have he2 : (e.1, e.2) ∈ b.sideLevels o.side := by
        rw [← hside]
        simpa using he
      rw [hprice] at he2
      have hfe := alFind_eq_of_mem_nodup (hknod o.side) he2
      have h5 : some e.2 = some lvl := hfe.symm.trans hl1
      injection h5 with h5
      exact Prod.ext hprice h5
    set lvl2 := (lvl.removeOrder order_id).2 with hlvl2
    have hlvl2eq : lvl2 = { lvl with orders := alErase order_id lvl.orders,
                                     total_size := lvl.total_size - o.size } := by
      rw [hlvl2, levelRemoveOrder_found hl2]
    have hWFlvl := hlvl o.side (o.price, lvl) (alFind_mem hl1)
    have hlvlnodup : (lvl.orders.map Prod.fst).Nodup := hWFlvl.2.2.1
    set L := b.sideLevels o.side with hL0
    set newL := OrderBook.removeFromLevels L o order_id with hnewL
    set B2 : OrderBook :=
      { b.setSide o.side newL with
        orders := alErase order_id (b.setSide o.side newL).orders } with hB2
    have hBorders : B2.orders = alErase order_id b.orders := by
      rw [hB2, orders_setSide]
    have hBside : ∀ s2 : OrderSide, s2 ≠ o.side →
        B2.sideLevels s2 = b.sideLevels s2 := by
      intro s2 hne
      rw [hB2, sideLevels_orders_update]
      exact sideLevels_setSide_ne b (fun hx => hne hx.symm) newL
    have hBsideS : B2.sideLevels o.side = newL := by
      rw [hB2, sideLevels_orders_update, sideLevels_setSide_self]
    have hmono : ∀ x v, x ≠ order_id → alFind x b.orders = some v →
        alFind x B2.orders = some v := by
      intro x v hx hv
      rw [hBorders, alFind_erase_ne (fun hh => hx hh.symm)]
      exact hv
    constructor
    · rw [bookWF_iff_S]
      refine ⟨?_, ?_, ?_, ?_⟩
      · rw [hBorders]
        exact hnod.sublist (alErase_sublist.map Prod.fst)
      · intro s2
        by_cases hss : s2 = o.side
        · subst hss
          rw [hBsideS, hnewL, removeFromLevels_found hl1]
          by_cases hemp : (lvl.removeOrder order_id).2.isEmpty
          · rw [if_pos hemp]
            exact (hknod o.side).sublist (alErase_sublist.map Prod.fst)
          · rw [if_neg hemp, keys_alAdjust]
            exact hknod o.side
        · rw [hBside s2 hss]
          exact hknod s2
      · intro oe hoe
        rw [hBorders] at hoe
        obtain ⟨hoe, hoeid⟩ := mem_alErase_ne hnod hoe
        obtain ⟨g1, g2⟩ := hlink oe hoe
        refine ⟨g1, ?_⟩
        rw [linkedOrder_iff] at g2 ⊢
        obtain ⟨lvlx, hx1, hx2⟩ := g2
        by_cases hside : oe.2.side = o.side
        · rw [hside] at hx1 ⊢
          rw [hBsideS, hnewL, removeFromLevels_found hl1]
          by_cases hpx : oe.2.price = o.price
          · rw [hpx] at hx1 ⊢
            have hxx : some lvl = some lvlx := hl1.symm.trans hx1
            injection hxx with hxx
            subst hxx
            by_cases hemp : (lvl.removeOrder order_id).2.isEmpty
            · -- impossible: the level became empty, so it held only the
              -- removed order, but oe also rested there with another id
              exfalso
              rw [← hlvl2] at hemp
              rw [hlvl2eq] at hemp
              simp only [PriceLevel.isEmpty, List.isEmpty_iff] at hemp
              rcases alErase_eq_nil hemp with hnil | ⟨v, hv⟩
              · rw [hnil] at hx2
                simp [alFind] at hx2
              · rw [hv] at hx2
                by_cases hq : order_id = oe.1
                · exact hoeid hq.symm
                · simp [alFind, hq] at hx2
            · rw [if_neg hemp]
              refine ⟨lvl2, ?_, ?_⟩
              · rw [alFind_adjust_self, hx1]
                rfl
              · rw [hlvl2eq]
                simp only
                rw [alFind_erase_ne (fun hh => hoeid hh.symm)]
                exact hx2
          · by_cases hemp : (lvl.removeOrder order_id).2.isEmpty
            · rw [if_pos hemp]
              refine ⟨lvlx, ?_, hx2⟩
              rw [alFind_erase_ne (fun hh => hpx hh.symm)]
              exact hx1
            · rw [if_neg hemp]
              refine ⟨lvlx, ?_, hx2⟩
              rw [alFind_adjust_ne (fun hh => hpx hh.symm)]
              exact hx1
        · rw [hBside _ hside]
          exact ⟨lvlx, hx1, hx2⟩
      · intro s2 e he
        by_cases hss : s2 = o.side
        · subst hss
          rw [hBsideS, hnewL, removeFromLevels_found hl1] at he
          by_cases hemp : (lvl.removeOrder order_id).2.isEmpty
          · rw [if_pos hemp] at he
            obtain ⟨he, hkey⟩ := mem_alErase_ne (hknod o.side) he
            obtain ⟨g1, g2, g3, g4⟩ := hlvl o.side e he
            refine ⟨g1, g2, g3, ?_⟩
            intro oe hoe
            obtain ⟨f1, f2, f3, f4⟩ := g4 oe hoe
            have hne : oe.1 ≠ order_id := by
              intro hq
              obtain ⟨_, hq2, _⟩ := honly o.side e he oe hoe hq
              exact hkey (congrArg Prod.fst hq2)
            exact ⟨f1, f2, f3, hmono _ _ hne f4⟩
          · rw [if_neg hemp] at he
            rcases mem_alAdjust_ne (hknod o.side) he with ⟨he, hkey⟩ | ⟨lvlv, hfv, he⟩
            · obtain ⟨g1, g2, g3, g4⟩ := hlvl o.side e he
              refine ⟨g1, g2, g3, ?_⟩
              intro oe hoe
              obtain ⟨f1, f2, f3, f4⟩ := g4 oe hoe
              have hne : oe.1 ≠ order_id := by
                intro hq
                obtain ⟨_, hq2, _⟩ := honly o.side e he oe hoe hq
                exact hkey (congrArg Prod.fst hq2)
              exact ⟨f1, f2, f3, hmono _ _ hne f4⟩
            · have hxx : some lvl = some lvlv := hl1.symm.trans hfv
              injection hxx with hxx
              subst hxx
              subst he
              rw [← hlvl2]
              rw [← hlvl2] at hemp
              have hne2 : lvl2.orders ≠ [] := by
                intro hnil
                apply hemp
                simp [PriceLevel.isEmpty, hnil]
              refine ⟨?_, hne2, ?_, ?_⟩
              · rw [hlvl2eq]
                exact hWFlvl.1
              · rw [hlvl2eq]
                exact hlvlnodup.sublist (alErase_sublist.map Prod.fst)
              · intro oe hoe
                rw [hlvl2eq] at hoe
                simp only at hoe
                obtain ⟨hoe, hne⟩ := mem_alErase_ne hlvlnodup hoe
                obtain ⟨f1, f2, f3, f4⟩ := hWFlvl.2.2.2 oe hoe
                refine ⟨f1, f2, ?_, hmono _ _ hne f4⟩
                rw [hlvl2eq]
                exact f3
        · rw [hBside s2 hss] at he
          obtain ⟨g1, g2, g3, g4⟩ := hlvl s2 e he
          refine ⟨g1, g2, g3, ?_⟩
          intro oe hoe
          obtain ⟨f1, f2, f3, f4⟩ := g4 oe hoe
          have hne : oe.1 ≠ order_id := by
            intro hq
            obtain ⟨hq1, _, _⟩ := honly s2 e he oe hoe hq
            subst hq1
            exact hss rfl
          exact ⟨f1, f2, f3, hmono _ _ hne f4⟩
    · -- counts
      show B2.getOrderCount = levelCountSum B2
      have hoc : B2.getOrderCount + 1 = b.getOrderCount := by
        rw [OrderBook.getOrderCount, OrderBook.getOrderCount, hBorders]
        exact length_alErase hfo
      have hlen2 : lvl2.orders.length + 1 = lvl.orders.length := by
        rw [hlvl2eq]
        simp only
        exact length_alErase hl2
      have hsum : (newL.map (fun e => e.2.orders.length)).sum + 1
          = (L.map (fun e => e.2.orders.length)).sum := by
        rw [hnewL, removeFromLevels_found hl1]
        by_cases hemp : (lvl.removeOrder order_id).2.isEmpty
        · rw [if_pos hemp]
          have h2 := sum_map_alErase (fun e => e.2.orders.length) hl1
          simp only at h2
          have hlen0 : lvl2.orders.length = 0 := by
            rw [← hlvl2] at hemp
            simp only [PriceLevel.isEmpty, List.isEmpty_iff] at hemp
            rw [hemp]
            rfl
          omega
        · rw [if_neg hemp, ← hlvl2]
          have h2 := sum_map_alAdjust (fun _ => lvl2)
            (fun e => e.2.orders.length) hl1
          simp only at h2
          omega
      have hlc : levelCountSum B2 + 1 = levelCountSum b := by
        have h3 := levelCountSum_setSide b o.side newL
        rw [← hL0] at h3
        rw [hB2, levelCountSum_orders_update]
        omega
      omega


theorem levelUpdateOrder_found {l : PriceLevel} {order_id : String}
    {new_size : ℚ} {o : Order} (h : alFind order_id l.orders = some o) :
    l.updateOrder order_id new_size
      = (true, { l with
          orders := alAdjust order_id (fun x => { x with size := new_size }) l.orders,
          total_size := l.total_size - o.size + new_size }) := by
  unfold PriceLevel.updateOrder
  rw [h]

theorem updateInLevels_none {L : List (ℚ × PriceLevel)} {o : Order}
    {order_id : String} {new_size : ℚ} (h : alFind o.price L = none) :
    OrderBook.updateInLevels L o order_id new_size = (false, L) := by
  unfold OrderBook.updateInLevels
  rw [h]

theorem updateInLevels_found {L : List (ℚ × PriceLevel)} {o : Order}
    {order_id : String} {new_size : ℚ} {lvl : PriceLevel}
    (h : alFind o.price L = some lvl) :
    OrderBook.updateInLevels L o order_id new_size
      = ((lvl.updateOrder order_id new_size).1,
         alAdjust o.price (fun _ => (lvl.updateOrder order_id new_size).2) L) := by
  unfold OrderBook.updateInLevels
  rw [h]

/-- In a well-formed book, the id index entry determines the unique level
holding the order: any level entry storing the id is the one the index points
to. -/
theorem wf_id_unique {b : OrderBook}
    (hknod : ∀ s : OrderSide, ((b.sideLevels s).map Prod.fst).Nodup)
    (hlvl : ∀ s : OrderSide, ∀ e ∈ b.sideLevels s, levelEntryWF b.orders s e)
    {order_id : String} {o : Order} (hfo : alFind order_id b.orders = some o)
    {lvl : PriceLevel} (hl1 : alFind o.price (b.sideLevels o.side) = some lvl) :
    ∀ s2 : OrderSide, ∀ e ∈ b.sideLevels s2, ∀ oe ∈ e.2.orders,
      oe.1 = order_id → s2 = o.side ∧ e = (o.price, lvl) ∧ oe.2 = o := by
  intro s2 e he oe hoe hid2
  obtain ⟨g1, g2, g3, g4⟩ := (hlvl s2 e he).2.2.2 oe hoe
  rw [hid2, hfo] at g4
  injection g4 with g4
  have hside : s2 = o.side := by rw [g4]; exact g2.symm
  have hprice : e.1 = o.price := by rw [g4]; exact g3.symm
  refine ⟨hside, ?_, g4.symm⟩
  have he2 : (e.1, e.2) ∈ b.sideLevels o.side := by
    rw [← hside]
    simpa using he
  rw [hprice] at he2
  have hfe := alFind_eq_of_mem_nodup (hknod o.side) he2
  have h5 : some e.2 = some lvl := hfe.symm.trans hl1
  injection h5 with h5
  exact Prod.ext hprice h5

/-- Explicit form of a successful `OrderBook::modifyOrder`. -/
theorem modifyOrder_eq {b : OrderBook} {order_id : String} {o : Order}
    {lvl : PriceLevel} (hfo : alFind order_id b.orders = some o)
    (hl1 : alFind o.price (b.sideLevels o.side) = some lvl)
    (hl2 : alFind order_id lvl.orders = some o) (new_size : ℚ) :
    b.modifyOrder order_id new_size =
      (true,
        { b.setSide o.side (alAdjust o.price
            (fun _ => (lvl.updateOrder order_id new_size).2) (b.sideLevels o.side)) with
          orders := alAdjust order_id (fun x => { x with size := new_size }) b.orders }) := by
  unfold OrderBook.modifyOrder
  rw [hfo]
  simp only [updateInLevels_found hl1]
  rw [levelUpdateOrder_found hl2]
  simp only [if_true, orders_setSide]

theorem bookInv_modifyOrder {b : OrderBook} (hI : bookInv b) (order_id : String)
    (new_size : ℚ) : bookInv (b.modifyOrder order_id new_size).2 := by
  obtain ⟨hwf, hcnt⟩ := hI
  rw [bookWF_iff_S] at hwf
  obtain ⟨hnod, hknod, hlink, hlvl⟩ := hwf
  cases hfo : alFind order_id b.orders with
  | none =>
    have : b.modifyOrder order_id new_size = (false, b) := by
      unfold OrderBook.modifyOrder
      rw [hfo]
    rw [this]
    exact ⟨(bookWF_iff_S b).2 ⟨hnod, hknod, hlink, hlvl⟩, hcnt⟩
  | some o =>
    obtain ⟨hido, hlinko⟩ := hlink (order_id, o) (alFind_mem hfo)
    rw [linkedOrder_iff] at hlinko
    obtain ⟨lvl, hl1, hl2⟩ := hlinko
    simp only at hido hl1 hl2
    have honly := wf_id_unique hknod hlvl hfo hl1
    have hWFlvl := hlvl o.side (o.price, lvl) (alFind_mem hl1)
    have hlvlnodup : (lvl.orders.map Prod.fst).Nodup := hWFlvl.2.2.1
    rw [modifyOrder_eq hfo hl1 hl2 new_size]
    rw [levelUpdateOrder_found hl2]
    set lvl2 : PriceLevel :=
      { lvl with
        orders := alAdjust order_id (fun x => { x with size := new_size }) lvl.orders,
        total_size := lvl.total_size - o.size + new_size } with hlvl2
    set newL := alAdjust o.price (fun _ => lvl2) (b.sideLevels o.side) with hnewL
    set B2 : OrderBook :=
      { b.setSide o.side newL with
        orders := alAdjust order_id (fun x => { x with size := new_size }) b.orders } with hB2
    show bookInv B2
    have hBorders : B2.orders
        = alAdjust order_id (fun x => { x with size := new_size }) b.orders := by
      rw [hB2]
    have hBside : ∀ s2 : OrderSide, s2 ≠ o.side →
        B2.sideLevels s2 = b.sideLevels s2 := by
      intro s2 hne
      rw [hB2, sideLevels_orders_update]
      exact sideLevels_setSide_ne b (fun hx => hne hx.symm) newL
    have hBsideS : B2.sideLevels o.side = newL := by
      rw [hB2, sideLevels_orders_update, sideLevels_setSide_self]
    have hmono : ∀ x v, x ≠ order_id → alFind x b.orders = some v →
        alFind x B2.orders = some v := by
      intro x v hx hv
      rw [hBorders, alFind_adjust_ne (fun hh => hx hh.symm)]
      exact hv
    have hfindnew : alFind order_id B2.orders
        = some { o with size := new_size } := by
      rw [hBorders, alFind_adjust_self, hfo]
      rfl
    constructor
    · rw [bookWF_iff_S]
      refine ⟨?_, ?_, ?_, ?_⟩
      · rw [hBorders, keys_alAdjust]
        exact hnod
      · intro s2
        by_cases hss : s2 = o.side
        · subst hss
          rw [hBsideS, hnewL, keys_alAdjust]
          exact hknod o.side
        · rw [hBside s2 hss]
          exact hknod s2
      · intro oe hoe
        rw [hBorders] at hoe
        rcases mem_alAdjust_ne hnod hoe with ⟨hoe, hoeid⟩ | ⟨v, hv, he⟩
        · obtain ⟨g1, g2⟩ := hlink oe hoe
          refine ⟨g1, ?_⟩
          rw [linkedOrder_iff] at g2 ⊢
          obtain ⟨lvlx, hx1, hx2⟩ := g2
          by_cases hside : oe.2.side = o.side
          · rw [hside] at hx1 ⊢
            by_cases hpx : oe.2.price = o.price
            · rw [hpx] at hx1 ⊢
              have hxx : some lvl = some lvlx := hl1.symm.trans hx1
              injection hxx with hxx
              subst hxx
              rw [hBsideS, hnewL]
              refine ⟨lvl2, ?_, ?_⟩
              · rw [alFind_adjust_self, hx1]
                rfl
              · rw [hlvl2]
                simp only
                rw [alFind_adjust_ne (fun hh => hoeid hh.symm)]
                exact hx2
            · rw [hBsideS, hnewL]
              refine ⟨lvlx, ?_, hx2⟩
              rw [alFind_adjust_ne (fun hh => hpx hh.symm)]
              exact hx1
          · rw [hBside _ hside]
            exact ⟨lvlx, hx1, hx2⟩
        · have hv2 : v = o := by
            have := hv.symm.trans hfo
            injection this
          subst hv2
          subst he
          refine ⟨hido, ?_⟩
          rw [linkedOrder_iff]
          simp only
          rw [hBsideS, hnewL]
          refine ⟨lvl2, ?_, ?_⟩
          · rw [alFind_adjust_self, hl1]
            rfl
          · rw [hlvl2]
            simp only
            rw [alFind_adjust_self, hl2]
            rfl
      · intro s2 e he
        by_cases hss : s2 = o.side
        · subst hss
          rw [hBsideS, hnewL] at he
          rcases mem_alAdjust_ne (hknod o.side) he with ⟨he, hkey⟩ | ⟨lvlv, hfv, he⟩
          · obtain ⟨g1, g2, g3, g4⟩ := hlvl o.side e he
            refine ⟨g1, g2, g3, ?_⟩
            intro oe hoe
            obtain ⟨f1, f2, f3, f4⟩ := g4 oe hoe
            have hne : oe.1 ≠ order_id := by
              intro hq
              obtain ⟨_, hq2, _⟩ := honly o.side e he oe hoe hq
              exact hkey (congrArg Prod.fst hq2)
            exact ⟨f1, f2, f3, hmono _ _ hne f4⟩
          · have hxx : some lvl = some lvlv := hl1.symm.trans hfv
            injection hxx with hxx
            subst hxx
            subst he
            refine ⟨?_, ?_, ?_, ?_⟩
            · rw [hlvl2]
              exact hWFlvl.1
            · rw [hlvl2]
              simp only
              intro hnil
              apply hWFlvl.2.1
              have : (alAdjust order_id
                  (fun x : Order => { x with size := new_size }) lvl.orders).length
                  = lvl.orders.length := length_alAdjust
              rw [hnil] at this
              simp only [List.length_nil] at this
              exact List.length_eq_zero.1 this.symm
            · rw [hlvl2]
              simp only
              rw [keys_alAdjust]
              exact hlvlnodup
            · intro oe hoe
              rw [hlvl2] at hoe
              simp only at hoe
              rcases mem_alAdjust_ne hlvlnodup hoe with ⟨hoe, hne⟩ | ⟨v2, hv2, he2⟩
              · obtain ⟨f1, f2, f3, f4⟩ := hWFlvl.2.2.2 oe hoe
                refine ⟨f1, f2, ?_, hmono _ _ hne f4⟩
                rw [hlvl2]
                exact f3
              · have hv3 : o = v2 := by
                  have h6 := hl2.symm.trans hv2
                  injection h6
                subst hv3
                subst he2
                obtain ⟨f1, f2, f3, f4⟩ := hWFlvl.2.2.2 (order_id, o) (alFind_mem hl2)
                exact ⟨f1, f2, f3, hfindnew⟩
        · rw [hBside s2 hss] at he
          obtain ⟨g1, g2, g3, g4⟩ := hlvl s2 e he
          refine ⟨g1, g2, g3, ?_⟩
          intro oe hoe
          obtain ⟨f1, f2, f3, f4⟩ := g4 oe hoe
          have hne : oe.1 ≠ order_id := by
            intro hq
            obtain ⟨hq1, _, _⟩ := honly s2 e he oe hoe hq
            subst hq1
            exact hss rfl
          exact ⟨f1, f2, f3, hmono _ _ hne f4⟩
    · show B2.getOrderCount = levelCountSum B2
      have hoc : B2.getOrderCount = b.getOrderCount := by
        rw [OrderBook.getOrderCount, OrderBook.getOrderCount, hBorders,
          length_alAdjust]
      have hsum : (newL.map (fun e => e.2.orders.length)).sum
          = ((b.sideLevels o.side).map (fun e => e.2.orders.length)).sum := by
        rw [hnewL]
        have h2 := sum_map_alAdjust (fun _ => lvl2)
          (fun e => e.2.orders.length) hl1
        have h4 : (fun e : ℚ × PriceLevel => e.2.orders.length)
              (o.price, (fun _ : PriceLevel => lvl2) lvl)
            = (fun e : ℚ × PriceLevel => e.2.orders.length) (o.price, lvl) := by
          show lvl2.orders.length = lvl.orders.length
          rw [hlvl2]
          exact length_alAdjust
        rw [h4] at h2
        exact Nat.add_right_cancel h2
      have hlc : levelCountSum B2 = levelCountSum b := by
        have h3 := levelCountSum_setSide b o.side newL
        rw [hB2, levelCountSum_orders_update]
        omega
      omega


theorem bookInv_processL3Update {b : OrderBook} (h : bookInv b)
    (type order_id : String) (side : OrderSide) (price size : ℚ) :
    bookInv (b.processL3Update type order_id side price size) := by
  unfold OrderBook.processL3Update
  by_cases h1 : type = "open" ∨ type = "received"
  · simp only [if_pos h1]
    exact bookInv_addOrder h _
  · simp only [if_neg h1]
    by_cases h2 : type = "match" ∨ type = "change"
    · simp only [if_pos h2]
      exact bookInv_modifyOrder h _ _
    · simp only [if_neg h2]
      by_cases h3 : type = "done"
      · simp only [if_pos h3]
        exact bookInv_removeOrder h _
      · simp only [if_neg h3]
        exact h

theorem bookInv_applyBookOp {b : OrderBook} (h : bookInv b) (op : BookOp) :
    bookInv (applyBookOp b op) := by
  cases op with
  | add o => exact bookInv_addOrder h o
  | remove oid => exact bookInv_removeOrder h oid
  | modify oid sz => exact bookInv_modifyOrder h oid sz
  | l3 ty oid side price size => exact bookInv_processL3Update h ty oid side price size

theorem bookInv_foldl (ops : List BookOp) {b : OrderBook} (h : bookInv b) :
    bookInv (ops.foldl applyBookOp b) := by
  induction ops generalizing b with
  | nil => exact h
  | cons op ops ih => exact ih (bookInv_applyBookOp h op)

/-!  The per-level size invariant (claim C5). -/

theorem levelInv_applyOp {l : PriceLevel} (h : levelInv l) (op : LevelOp) :
    levelInv (applyLevelOp l op) := by
  cases op with
  | add o =>
    simp only [applyLevelOp]
    by_cases h1 : |o.price - l.price| > dblEpsilon
    · simpa [PriceLevel.addOrder, h1] using h
    · by_cases h2 : (alFind o.id l.orders).isSome
      · simpa [PriceLevel.addOrder, h1, h2] using h
      · have hid : alFind o.id l.orders = none := Option.not_isSome_iff_eq_none.1 h2
        rw [levelAddOrder_close h1 hid]
        unfold levelInv levelSizeSum at h ⊢
        simp [List.map_append, List.sum_append, h]
  | remove oid =>
    simp only [applyLevelOp]
    cases hf : alFind oid l.orders with
    | none =>
      unfold PriceLevel.removeOrder
      rw [hf]
      exact h
    | some o =>
      rw [levelRemoveOrder_found hf]
      unfold levelInv levelSizeSum at h ⊢
      simp only
      have h2 := sum_map_alErase (fun e => e.2.size) hf
      simp only at h2
      rw [h]
      linarith [h2]
  | update oid sz =>
    simp only [applyLevelOp]
    cases hf : alFind oid l.orders with
    | none =>
      unfold PriceLevel.updateOrder
      rw [hf]
      exact h
    | some o =>
      rw [levelUpdateOrder_found hf]
      unfold levelInv levelSizeSum at h ⊢
      simp only
      have h2 := sum_map_alAdjust (fun x => { x with size := sz })
        (fun e => e.2.size) hf
      simp only at h2
      rw [h]
      linarith [h2]

theorem levelInv_foldl (ops : List LevelOp) {l : PriceLevel} (h : levelInv l) :
    levelInv (ops.foldl applyLevelOp l) := by
  induction ops generalizing l with
  | nil => exact h
  | cons op ops ih => exact ih (levelInv_applyOp h op)

theorem levelInv_mkLevel (p : ℚ) : levelInv (PriceLevel.mkLevel p) := by
  unfold levelInv levelSizeSum PriceLevel.mkLevel
  simp


/-!  Round-trip machinery for claim C7. -/

theorem book_eq_of_fields {b1 b2 : OrderBook} (h1 : b1.bid_levels = b2.bid_levels)
    (h2 : b1.ask_levels = b2.ask_levels) (h3 : b1.orders = b2.orders) : b1 = b2 := by
  cases b1
  cases b2
  simp_all

theorem priceLevel_eq_of_fields {l1 l2 : PriceLevel} (h1 : l1.price = l2.price)
    (h2 : l1.total_size = l2.total_size) (h3 : l1.orders = l2.orders) : l1 = l2 := by
  cases l1
  cases l2
  simp_all

theorem setSide_setSide (b : OrderBook) (s : OrderSide)
    (ls ls2 : List (ℚ × PriceLevel)) :
    (b.setSide s ls).setSide s ls2 = b.setSide s ls2 := by
  cases s <;> rfl

theorem processL3_open (b : OrderBook) (x : String) (s : OrderSide) (p sz : ℚ) :
    b.processL3Update "open" x s p sz = (b.addOrder ⟨x, s, p, sz⟩).2 := by
  unfold OrderBook.processL3Update
  rw [if_pos (Or.inl rfl)]

theorem processL3_done (b : OrderBook) (x : String) (s : OrderSide) (p sz : ℚ) :
    b.processL3Update "done" x s p sz = (b.removeOrder x).2 := by
  unfold OrderBook.processL3Update
  rw [if_neg (by decide), if_neg (by decide), if_pos rfl]

theorem addOrder_removeOrder_roundtrip {b : OrderBook} (hb : bookInv b)
    {o : Order} (hfresh : alFind o.id b.orders = none) :
    ((b.addOrder o).2.removeOrder o.id).2 = b := by
  obtain ⟨hwf, _⟩ := hb
  rw [bookWF_iff_S] at hwf
  obtain ⟨hnod, hknod, hlink, hlvl⟩ := hwf
  have hdup : ¬ (alFind o.id b.orders).isSome = true := by
    simp [hfresh]
  set L := b.sideLevels o.side with hL0
  set L2 := OrderBook.addToLevels (OrderBook.insFor o.side) L o with hL2
  have haddeq : (b.addOrder o).2
      = { b.setSide o.side L2 with orders := b.orders ++ [(o.id, o)] } := by
    unfold OrderBook.addOrder
    rw [if_neg hdup]
    simp only [orders_setSide]
  rw [haddeq]
  set B1 : OrderBook := { b.setSide o.side L2 with orders := b.orders ++ [(o.id, o)] }
    with hB1
  have hB1orders : B1.orders = b.orders ++ [(o.id, o)] := by rw [hB1]
  have hB1side : B1.sideLevels o.side = L2 := by
    rw [hB1, sideLevels_orders_update, sideLevels_setSide_self]
  have hB1other : ∀ s2 : OrderSide, s2 ≠ o.side →
      B1.sideLevels s2 = b.sideLevels s2 := by
    intro s2 hne
    rw [hB1, sideLevels_orders_update]
    exact sideLevels_setSide_ne b (fun hx => hne hx.symm) L2
  have hfindB1 : alFind o.id B1.orders = some o := by
    rw [hB1orders, alFind_append_none hfresh]
    simp [alFind]
  -- the level-side removal undoes the level-side insertion
  have hrem : OrderBook.removeFromLevels L2 o o.id = L := by
    cases hL : alFind o.price L with
    | none =>
      have hL2eq : L2 = OrderBook.insFor o.side o.price
          (⟨o.price, 0 + o.size, [(o.id, o)]⟩ : PriceLevel) L := by
        rw [hL2, addToLevels_none hL, mkLevel_addOrder]
      have hfind2 : alFind o.price L2 = some (⟨o.price, 0 + o.size, [(o.id, o)]⟩ : PriceLevel) := by
        rw [hL2eq]
        exact alFind_insFor_self o.side hL
      rw [removeFromLevels_found hfind2]
      have hremlvl : ((⟨o.price, 0 + o.size, [(o.id, o)]⟩ : PriceLevel).removeOrder o.id).2
          = (⟨o.price, 0 + o.size - o.size, []⟩ : PriceLevel) := by
        have hfnd : alFind o.id ([(o.id, o)] : List (String × Order)) = some o := by
          simp [alFind]
        rw [levelRemoveOrder_found hfnd]
        simp [alErase]
      rw [hremlvl]
      rw [if_pos (by simp [PriceLevel.isEmpty])]
      rw [hL2eq]
      exact alErase_insFor o.side hL
    | some lvl =>
      have hWFe := hlvl o.side (o.price, lvl) (alFind_mem hL)
      have hfreshlvl : alFind o.id lvl.orders = none := by
        cases hfind : alFind o.id lvl.orders with
        | none => rfl
        | some v =>
          have := (hWFe.2.2.2 (o.id, v) (alFind_mem hfind)).2.2.2
          rw [hfresh] at this
          exact absurd this (by simp)
      have hsucc := levelAddOrder_success hWFe.1.symm hfreshlvl
      have hL2eq : L2 = alAdjust o.price (fun l => (l.addOrder o).2) L := by
        rw [hL2, addToLevels_some hL]
      have hfind2 : alFind o.price L2 = some (PriceLevel.mk lvl.price (lvl.total_size + o.size) (lvl.orders ++ [(o.id, o)])) := by
        rw [hL2eq, alFind_adjust_self, hL]
        show some ((lvl.addOrder o).2) = _
        rw [hsucc]
      rw [removeFromLevels_found hfind2]
      have hfindlvl : alFind o.id (lvl.orders ++ [(o.id, o)]) = some o := by
        rw [alFind_append_none hfreshlvl]
        simp [alFind]
      have hremlvl : ((PriceLevel.mk lvl.price (lvl.total_size + o.size) (lvl.orders ++ [(o.id, o)])).removeOrder o.id).2 = lvl := by
        rw [levelRemoveOrder_found hfindlvl]
        apply priceLevel_eq_of_fields
        · rfl
        · show lvl.total_size + o.size - o.size = lvl.total_size
          ring
        · show alErase o.id (lvl.orders ++ [(o.id, o)]) = lvl.orders
          exact alErase_append_of_none hfreshlvl
      rw [hremlvl]
      rw [if_neg (by simp [PriceLevel.isEmpty, hWFe.2.1])]
      rw [hL2eq, alAdjust_adjust]
      exact alAdjust_eq_self hL rfl
  -- assemble the final book
  unfold OrderBook.removeOrder
  rw [hfindB1]
  show ({ B1.setSide o.side (OrderBook.removeFromLevels (B1.sideLevels o.side) o o.id) with
      orders := alErase o.id
        (B1.setSide o.side (OrderBook.removeFromLevels (B1.sideLevels o.side) o o.id)).orders } : OrderBook) = b
  rw [hB1side, hrem]
  rw [orders_setSide, hB1orders, alErase_append_of_none hfresh]
  have hsides : ∀ s2 : OrderSide, (B1.setSide o.side L).sideLevels s2 = b.sideLevels s2 := by
    intro s2
    by_cases hss : s2 = o.side
    · subst hss
      rw [sideLevels_setSide_self]
    · rw [sideLevels_setSide_ne B1 (fun hx => hss hx.symm) L]
      exact hB1other s2 hss
  apply book_eq_of_fields
  · exact hsides OrderSide.BUY
  · exact hsides OrderSide.SELL
  · rfl


/-!  Snapshot and dropped-message lemmas (claims C2, C4). -/

theorem getOrder_addOrder_mono {b : OrderBook} {x : String} {o : Order}
    (h : alFind x b.orders = some o) (o2 : Order) :
    alFind x (b.addOrder o2).2.orders = some o := by
  unfold OrderBook.addOrder
  by_cases hdup : (alFind o2.id b.orders).isSome
  · simpa [hdup] using h
  · simp only [if_neg hdup, orders_setSide]
    exact alFind_append_some h

theorem applySnapEntries_mono (side : OrderSide) (idPre : String)
    (entries : List SnapEntry) {b : OrderBook} {x : String} {o : Order}
    (h : alFind x b.orders = some o) :
    alFind x (applySnapEntries side idPre b entries).1.orders = some o := by
  induction entries generalizing b with
  | nil => exact h
  | cons e rest ih =>
    cases hp : e.price with
    | none =>
      show alFind x (match e.price, e.size with
        | some p, some sz => _
        | _, _ => (b, true)).1.orders = some o
      rw [hp]
      cases e.size <;> exact h
    | some p =>
      cases hsz : e.size with
      | none =>
        show alFind x (match e.price, e.size with
          | some p, some sz => _
          | _, _ => (b, true)).1.orders = some o
        rw [hp, hsz]
        exact h
      | some sz =>
        show alFind x (applySnapEntries side idPre b (e :: rest)).1.orders = some o
        unfold applySnapEntries
        rw [hp, hsz]
        exact ih (getOrder_addOrder_mono h _)

theorem processSnapshot_preserves {b : OrderBook} (m : SnapMsg) {x : String}
    {o : Order} (h : b.getOrder x = some o) :
    (processSnapshot b m).getOrder x = some o := by
  unfold OrderBook.getOrder at h ⊢
  unfold processSnapshot
  by_cases h0 : m.has_product_id = false
  · rw [if_pos h0]
    exact h
  · rw [if_neg h0]
    by_cases h1 : m.has_bids = false ∨ m.has_asks = false
    · rw [if_pos h1]
      exact h
    · rw [if_neg h1]
      by_cases h2 : (applySnapEntries OrderSide.BUY "bid-" b m.bids).2 = true
      · rw [if_pos h2]
        exact applySnapEntries_mono _ _ _ h
      · rw [if_neg h2]
        exact applySnapEntries_mono _ _ _ (applySnapEntries_mono _ _ _ h)


theorem handleMsg_dropped (b : OrderBook) (m : InboundMsg)
    (h : msgDropped m) : handleMsg b m = b := by
  cases m with
  | snapshot m =>
    show processSnapshot b m = b
    unfold msgDropped at h
    unfold processSnapshot
    by_cases h0 : m.has_product_id = false
    · rw [if_pos h0]
    · rw [if_neg h0]
      rcases h with h | h | h
      · exact absurd h h0
      · rw [if_pos (Or.inl h)]
      · rw [if_pos (Or.inr h)]
  | l3 m =>
    show processL3Msg b m = b
    cases m with
    | openMsg oid side price size =>
      unfold msgDropped at h
      rcases h with h | h | h | h
      · subst h
        rfl
      · subst h
        cases oid <;> rfl
      · subst h
        cases oid <;> cases side <;> rfl
      · subst h
        cases oid <;> cases side <;> cases price <;> rfl
    | doneMsg oid =>
      unfold msgDropped at h
      subst h
      rfl
    | matchMsg maker size =>
      unfold msgDropped at h
      rcases h with h | h
      · subst h
        rfl
      · subst h
        cases maker <;> rfl
    | changeMsg oid new_size =>
      unfold msgDropped at h
      rcases h with h | h
      · subst h
        rfl
      · subst h
        cases oid <;> rfl
  | ticker m =>
    obtain ⟨bb, bbs, ba, bas, seq⟩ := m
    unfold msgDropped at h
    simp only at h
    cases bb <;> cases bbs <;> cases ba <;> cases bas <;> cases seq <;>
      simp_all [handleMsg, processTicker]
  | otherMsg => rfl


/-!  Equivalence of the code ask-walk with the prefix-sum reading (claim C8). -/

theorem runningTotals_cons (e : ℚ × ℚ) (l : List (ℚ × ℚ)) :
    runningTotals (e :: l) = e.2 :: (runningTotals l).map (fun x => e.2 + x) := by
  unfold runningTotals
  rw [List.length_cons, List.range_succ_eq_map]
  simp [List.map_map, Function.comp, totalVolume]

theorem getLast_getD_cons (a d : ℚ) (l : List ℚ) :
    ((a :: l).getLast?).getD d = (l.getLast?).getD a := by
  induction l generalizing a with
  | nil => rfl
  | cons b t ih =>
    rw [List.getLast?_cons_cons]
    have hs : ((b :: t).getLast?).isSome := by
      rw [List.getLast?_isSome]
      simp
    obtain ⟨v, hv⟩ := Option.isSome_iff_exists.1 hs
    rw [hv]
    rfl

theorem find_zip_shift (t d : ℚ) (l : List (ℚ × ℚ)) (P : List ℚ) :
    (l.zip (P.map (fun x => d + x))).find? (fun e => decide (t ≤ e.2))
      = ((l.zip P).find? (fun e => decide (t - d ≤ e.2))).map
          (fun e => (e.1, d + e.2)) := by
  induction l generalizing P with
  | nil => simp
  | cons e l ih =>
    cases P with
    | nil => simp
    | cons p P =>
      simp only [List.map_cons, List.zip_cons_cons]
      by_cases h : t - d ≤ p
      · have h2 : t ≤ d + p := by linarith
        rw [List.find?_cons_of_pos _ (by simpa using h2),
            List.find?_cons_of_pos _ (by simpa using h)]
        rfl
      · have h2 : ¬ t ≤ d + p := by
          intro hx
          exact h (by linarith)
        rw [List.find?_cons_of_neg _ (by simpa using h2),
            List.find?_cons_of_neg _ (by simpa using h)]
        exact ih P

theorem impactWalk_spec (thr : ℚ) (l : List (ℚ × ℚ)) :
    ∀ c imp : ℚ, impactWalk thr c imp l =
      (match (l.zip (runningTotals l)).find? (fun e => thr - c ≤ e.2) with
       | some e => e.1.1
       | none => ((l.map (fun e => e.1)).getLast?).getD imp) := by
  induction l with
  | nil =>
    intro c imp
    simp [impactWalk, runningTotals]
  | cons e l ih =>
    intro c imp
    rw [runningTotals_cons]
    simp only [List.zip_cons_cons, List.map_cons]
    by_cases hc : c + e.2 ≥ thr
    · have h2 : thr - c ≤ e.2 := by linarith
      rw [List.find?_cons_of_pos _ (by simpa using h2)]
      simp [impactWalk, hc]
    · have h2 : ¬ (thr - c ≤ e.2) := by
        intro hx
        exact hc (by linarith)
      rw [List.find?_cons_of_neg _ (by simpa using h2)]
      have hW : impactWalk thr c imp (e :: l) = impactWalk thr (c + e.2) e.1 l := by
        simp [impactWalk, hc]
      rw [hW, ih (c + e.2) e.1]
      rw [find_zip_shift (thr - c) e.2 l (runningTotals l)]
      have hsub : thr - c - e.2 = thr - (c + e.2) := by ring
      rw [hsub]
      cases hF : (l.zip (runningTotals l)).find? (fun x => thr - (c + e.2) ≤ x.2) with
      | some x => rfl
      | none =>
        show ((l.map (fun e => e.1)).getLast?).getD e.1
          = ((e.1 :: l.map (fun e => e.1)).getLast?).getD imp
        rw [getLast_getD_cons]

theorem impactWalk_specReached (thr fb : ℚ) (l : List (ℚ × ℚ)) :
    impactWalk thr 0 fb l = specReached thr l fb := by
  rw [impactWalk_spec]
  unfold specReached
  have hpred : (fun e : (ℚ × ℚ) × ℚ => decide (thr - 0 ≤ e.2))
      = (fun e => decide (thr ≤ e.2)) := by
    funext e
    rw [sub_zero]
  rw [hpred]


/-!  The claims. -/

/-- C1 (counterexample): on a book resting order "a" (size 2),
`modifyOrder "a" 0` does NOT behave like `removeOrder "a"`: it returns true,
the order is still resting with size 0, the order count is unchanged and the
price level is not evicted — contradicting the claim that `new_size ≤ 0`
delegates to remove. -/
theorem C1_counterexample :
    (demoBook.modifyOrder "a" 0).1 = true ∧
    (demoBook.modifyOrder "a" 0).2.getOrder "a"
      = some ⟨"a", OrderSide.BUY, 100, 0⟩ ∧
    (demoBook.modifyOrder "a" 0).2.getOrderCount = demoBook.getOrderCount ∧
    (demoBook.modifyOrder "a" 0).2.getBidLevelCount = 1 := by
  decide

/-- C1 (amended): for every well-formed order book with a resting order of id
`x`, `modify_order(x, new_size)` — for ANY `new_size`, including values ≤ 0 —
updates the order in place: it returns true, `get_order(x)` afterwards
returns the order with its size set to `new_size`, and `order_count` is
unchanged (the order is not removed and its level is not evicted). -/
theorem C1_modify_updates_in_place {b : OrderBook} {x : String}
    {o : Order} (hb : bookInv b) (ho : b.getOrder x = some o) (new_size : ℚ) :
    (b.modifyOrder x new_size).1 = true ∧
    (b.modifyOrder x new_size).2.getOrder x = some { o with size := new_size } ∧
    (b.modifyOrder x new_size).2.getOrderCount = b.getOrderCount := by
  obtain ⟨hwf, _⟩ := hb
  rw [bookWF_iff_S] at hwf
  obtain ⟨hnod, hknod, hlink, hlvl⟩ := hwf
  unfold OrderBook.getOrder at ho
  obtain ⟨hido, hlinko⟩ := hlink (x, o) (alFind_mem ho)
  rw [linkedOrder_iff] at hlinko
  obtain ⟨lvl, hl1, hl2⟩ := hlinko
  simp only at hido hl1 hl2
  rw [modifyOrder_eq ho hl1 hl2 new_size]
  refine ⟨rfl, ?_, ?_⟩
  · show alFind x (alAdjust x (fun y => { y with size := new_size }) b.orders)
      = some { o with size := new_size }
    rw [alFind_adjust_self, ho]
    rfl
  · show (alAdjust x (fun y => { y with size := new_size }) b.orders).length
      = b.orders.length
    exact length_alAdjust

/-- C1 (witness): the amended statement applied to the concrete book. -/
theorem C1_witness :
    (demoBook.modifyOrder "a" 0).1 = true ∧
    (demoBook.modifyOrder "a" 0).2.getOrder "a"
      = some ⟨"a", OrderSide.BUY, 100, 0⟩ ∧
    (demoBook.modifyOrder "a" 0).2.getOrderCount = demoBook.getOrderCount :=
  @C1_modify_updates_in_place demoBook "a" ⟨"a", OrderSide.BUY, 100, 2⟩
    (by decide) (by decide) 0

/-- C2 (counterexample): applying a snapshot listing only the orders "b1" and
"s1" to a book already holding order "a" yields a book that still contains
"a" (three orders in total) — the snapshot does not replace the existing
state. -/
theorem C2_counterexample :
    (processSnapshot demoBook demoSnap).getOrder "a"
      = some ⟨"a", OrderSide.BUY, 100, 2⟩ ∧
    (processSnapshot demoBook demoSnap).getOrderCount = 3 := by
  decide

/-- C2 (amended): `processSnapshot` does not clear the book; it only adds the
snapshot's entries with `addOrder` (rejecting duplicate ids).  Hence every
order resting before the snapshot is still resting, unchanged, afterwards;
the prior state is preserved, not replaced. -/
theorem C2_snapshot_preserves_existing {b : OrderBook} (m : SnapMsg)
    {x : String} {o : Order} (h : b.getOrder x = some o) :
    (processSnapshot b m).getOrder x = some o :=
  processSnapshot_preserves m h

/-- C2 (witness): the amended statement applied to the concrete book. -/
theorem C2_witness :
    (processSnapshot demoBook demoSnap).getOrder "a"
      = some ⟨"a", OrderSide.BUY, 100, 2⟩ :=
  C2_snapshot_preserves_existing demoSnap (by decide)

/-- C3 (code bug, evaluated at the failing input): a fully populated ticker
frame applied to a book holding order "a" mutates the book: the book is
cleared and replaced by the two synthetic orders "bid-7"/"ask-7"; order "a"
is gone.  The claim (a ticker never mutates the book) is what the spec
requires, and the spec itself flags this code path as a bug. -/
theorem C3_ticker_clears_book :
    handleMsg demoBook (InboundMsg.ticker demoTicker) ≠ demoBook ∧
    (handleMsg demoBook (InboundMsg.ticker demoTicker)).getOrder "a" = none ∧
    (handleMsg demoBook (InboundMsg.ticker demoTicker)).getOrderCount = 2 ∧
    (handleMsg demoBook (InboundMsg.ticker demoTicker)).getOrder "bid-7"
      = some ⟨"bid-7", OrderSide.BUY, 100, 1⟩ ∧
    (handleMsg demoBook (InboundMsg.ticker demoTicker)).getOrder "ask-7"
      = some ⟨"ask-7", OrderSide.SELL, 101, 2⟩ := by
  have hgone : (handleMsg demoBook (InboundMsg.ticker demoTicker)).getOrder "a"
      = none := by decide
  refine ⟨?_, hgone, by decide, by decide, by decide⟩
  intro h
  rw [h] at hgone
  exact absurd hgone (by decide)

/-- C4 (counterexample): a snapshot whose second bid entry has a malformed
price is NOT dropped as a whole: the first entry is applied before the parse
failure aborts the loop, so the book gains order "g1". -/
theorem C4_counterexample :
    processSnapshot emptyBook demoBadSnap ≠ emptyBook ∧
    (processSnapshot emptyBook demoBadSnap).getOrder "g1"
      = some ⟨"g1", OrderSide.BUY, 100, 1⟩ ∧
    (processSnapshot emptyBook demoBadSnap).getOrderCount = 1 := by
  decide

/-- C4 (amended): a message with a missing required field — and an L3 or
ticker message with a malformed number — is dropped whole and leaves the book
unchanged; but a malformed number inside a snapshot's entry list only aborts
the snapshot at that entry, leaving the earlier entries applied. -/
theorem C4_missing_field_drops_message (b : OrderBook) (m : InboundMsg)
    (h : msgDropped m) : handleMsg b m = b :=
  handleMsg_dropped b m h

/-- C4 (witness): a snapshot with no `bids` field leaves the book unchanged. -/
theorem C4_witness :
    handleMsg demoBook (InboundMsg.snapshot ⟨true, false, true, [], []⟩)
      = demoBook :=
  C4_missing_field_drops_message demoBook
    (InboundMsg.snapshot ⟨true, false, true, [], []⟩) (by decide)

/-- C5: for every sequence of PriceLevel operations starting from a fresh
level, after each operation `total_size` equals the sum of the stored order
sizes, and the level is empty exactly when it holds no orders. -/
theorem C5_level_total_size_invariant (p : ℚ) (ops : List LevelOp) :
    (ops.foldl applyLevelOp (PriceLevel.mkLevel p)).total_size
      = levelSizeSum (ops.foldl applyLevelOp (PriceLevel.mkLevel p)) ∧
    ((ops.foldl applyLevelOp (PriceLevel.mkLevel p)).isEmpty = true ↔
      (ops.foldl applyLevelOp (PriceLevel.mkLevel p)).orders = []) := by
  refine ⟨levelInv_foldl ops (levelInv_mkLevel p), ?_⟩
  simp [PriceLevel.isEmpty, List.isEmpty_iff]

/-- C6: for every sequence of OrderBook operations (add, remove, modify and
raw L3 events) applied to a fresh book, `order_count` equals the sum of the
per-level order counts over all bid levels and all ask levels. -/
theorem C6_order_count_invariant (ops : List BookOp) :
    (ops.foldl applyBookOp emptyBook).getOrderCount
      = ((ops.foldl applyBookOp emptyBook).bid_levels.map
          (fun e => e.2.getOrderCount)).sum
      + ((ops.foldl applyBookOp emptyBook).ask_levels.map
          (fun e => e.2.getOrderCount)).sum := by
  have h := (bookInv_foldl ops bookInv_empty).2
  simpa [levelCountSum, PriceLevel.getOrderCount] using h

/-- C7 (counterexample): on a book already holding a resting order with id
"a", applying `open("a", BUY, 100, 1)` (which is rejected as a duplicate) and
then `done("a")` does not restore the book: the pre-existing order "a" is
removed, leaving the empty book. -/
theorem C7_counterexample :
    (demoBook.processL3Update "open" "a" OrderSide.BUY 100 1).processL3Update
        "done" "a" OrderSide.BUY 0 0 ≠ demoBook ∧
    (demoBook.processL3Update "open" "a" OrderSide.BUY 100 1).processL3Update
        "done" "a" OrderSide.BUY 0 0 = emptyBook := by
  decide

/-- C7 (amended): for every well-formed book with NO resting order of id `x`,
applying `open(x, side, price, size)` and then `done(x)` restores the book
exactly, including eviction of any price level the open created. -/
theorem C7_open_done_roundtrip {b : OrderBook} (hb : bookInv b) {x : String}
    (hfresh : b.getOrder x = none) (s : OrderSide) (p sz : ℚ)
    (s2 : OrderSide) (p2 sz2 : ℚ) :
    (b.processL3Update "open" x s p sz).processL3Update "done" x s2 p2 sz2
      = b := by
  rw [processL3_open, processL3_done]
  exact addOrder_removeOrder_roundtrip hb hfresh

/-- C7 (witness): the round trip applied to the concrete book with the fresh
id "z". -/
theorem C7_witness :
    (demoBook.processL3Update "open" "z" OrderSide.SELL 101 1).processL3Update
        "done" "z" OrderSide.BUY 0 0 = demoBook :=
  C7_open_done_roundtrip (by decide) (by decide) OrderSide.SELL 101 1
    OrderSide.BUY 0 0

/-- C8 (counterexample): the code's `price_impact_1pct_` is NOT
`(reached_price − best_ask)/best_ask`: on bids = [(100,100)] and
asks = [(101,1),(102,200)] the walk reaches price 102, the claimed formula
gives 1/101, but the code reports 100/101 (the value in percent). -/
theorem C8_counterexample :
    price_impact_1pct [(100, 100)] [(101, 1), (102, 200)] = some (100/101) ∧
    spec_impact_1pct [(100, 100)] [(101, 1), (102, 200)] = 1/101 ∧
    price_impact_1pct [(100, 100)] [(101, 1), (102, 200)]
      ≠ some (spec_impact_1pct [(100, 100)] [(101, 1), (102, 200)]) := by
  have h1 : price_impact_1pct [(100, 100)] [(101, 1), (102, 200)]
      = some (100/101) := by
    norm_num [price_impact_1pct, impactWalk, totalVolume]
  have h2 : spec_impact_1pct [(100, 100)] [(101, 1), (102, 200)] = 1/101 := by
    norm_num [spec_impact_1pct, specReached, runningTotals, totalVolume,
      List.range_succ, List.find?]
  refine ⟨h1, h2, ?_⟩
  rw [h1, h2]
  simp only [ne_eq, Option.some.injEq]
  norm_num

/-- C8 (amended): with both sides non-empty, the code's `price_impact_1pct_`
equals 100 times the spec's `(reached_price − best_ask)/best_ask`, i.e. the
same walk expressed in percent. -/
theorem C8_impact_is_percent_of_spec (bids asks : List (ℚ × ℚ))
    (hb : bids ≠ []) (ha : asks ≠ []) :
    price_impact_1pct bids asks = some (100 * spec_impact_1pct bids asks) := by
  cases bids with
  | nil => exact absurd rfl hb
  | cons b0 brest =>
    cases asks with
    | nil => exact absurd rfl ha
    | cons a0 arest =>
      simp only [price_impact_1pct, spec_impact_1pct]
      rw [impactWalk_specReached]
      congr 1
      ring

/-- C8 (witness): the amended statement at a concrete snapshot pair. -/
theorem C8_witness :
    price_impact_1pct [(100, 100)] [(101, 1), (102, 200)]
      = some (100 * spec_impact_1pct [(100, 100)] [(101, 1), (102, 200)]) :=
  C8_impact_is_percent_of_spec [(100, 100)] [(101, 1), (102, 200)]
    (by decide) (by decide)

/-- C9: `add_order` returns false (and leaves the book unchanged) when an
order with the same id is already resting; `remove_order` and `modify_order`
return false (and leave the book unchanged) when no resting order has the
given id.  Failure is reported through the return value, never fatally. -/
theorem C9_failures_return_false (b : OrderBook) (o : Order) (x : String)
    (sz : ℚ) :
    (b.getOrder o.id ≠ none → b.addOrder o = (false, b)) ∧
    (b.getOrder x = none →
      b.removeOrder x = (false, b) ∧ b.modifyOrder x sz = (false, b)) := by
  constructor
  · intro h
    unfold OrderBook.getOrder at h
    unfold OrderBook.addOrder
    rw [if_pos (Option.ne_none_iff_isSome.1 h)]
  · intro h
    unfold OrderBook.getOrder at h
    constructor
    · unfold OrderBook.removeOrder
      rw [h]
    · unfold OrderBook.modifyOrder
      rw [h]

/-- C9 (witness): the three failure cases on the concrete book. -/
theorem C9_witness :
    demoBook.addOrder ⟨"a", OrderSide.SELL, 5, 1⟩ = (false, demoBook) ∧
    demoBook.removeOrder "zz" = (false, demoBook) ∧
    demoBook.modifyOrder "zz" 7 = (false, demoBook) :=
  ⟨(C9_failures_return_false demoBook ⟨"a", OrderSide.SELL, 5, 1⟩ "zz" 7).1
      (by decide),
   ((C9_failures_return_false demoBook ⟨"a", OrderSide.SELL, 5, 1⟩ "zz" 7).2
      (by decide)).1,
   ((C9_failures_return_false demoBook ⟨"a", OrderSide.SELL, 5, 1⟩ "zz" 7).2
      (by decide)).2⟩

/-- C10: on an empty bid side `getBestBid` returns 0; on an empty ask side
`getBestAsk` returns `std::numeric_limits<double>::max()` (the exact rational
`dblMax`); and `getSpread` and `getMidpointPrice` treat exactly these two
values as the empty-side guards, returning 0 whenever a side is empty. -/
theorem C10_empty_side_sentinels (b : OrderBook) :
    (b.bid_levels = [] → b.getBestBid = 0) ∧
    (b.ask_levels = [] → b.getBestAsk = dblMax) ∧
    (b.bid_levels = [] ∨ b.ask_levels = [] →
      b.getSpread = 0 ∧ b.getMidpointPrice = 0) := by
  refine ⟨?_, ?_, ?_⟩
  · intro h
    unfold OrderBook.getBestBid
    rw [h]
  · intro h
    unfold OrderBook.getBestAsk
    rw [h]
  · intro h
    have hguard : ¬ (b.getBestBid > 0 ∧ b.getBestAsk < dblMax) := by
      rcases h with h | h
      · have hbb : b.getBestBid = 0 := by
          unfold OrderBook.getBestBid
          rw [h]
        intro hc
        rw [hbb] at hc
        exact lt_irrefl 0 hc.1
      · have hba : b.getBestAsk = dblMax := by
          unfold OrderBook.getBestAsk
          rw [h]
        intro hc
        rw [hba] at hc
        exact lt_irrefl dblMax hc.2
    constructor
    · unfold OrderBook.getSpread
      rw [if_neg hguard]
    · unfold OrderBook.getMidpointPrice
      rw [if_neg hguard]

/-- C10 (witness): the sentinels on the freshly constructed book. -/
theorem C10_witness :
    emptyBook.getBestBid = 0 ∧ emptyBook.getBestAsk = dblMax ∧
    emptyBook.getSpread = 0 ∧ emptyBook.getMidpointPrice = 0 :=
  ⟨(C10_empty_side_sentinels emptyBook).1 rfl,
   (C10_empty_side_sentinels emptyBook).2.1 rfl,
   ((C10_empty_side_sentinels emptyBook).2.2 (Or.inl rfl)).1,
   ((C10_empty_side_sentinels emptyBook).2.2 (Or.inl rfl)).2⟩

end Clunk
